/-
  Verification of simplecrawler (TypeScript) against its natural-language
  specification.

  Shallow embedding: the queue (src/queue.ts), the cookie jar
  (src/cookies.ts) and the relevant parts of the crawler (src/crawler.ts)
  are translated into executable Lean definitions.  JavaScript numbers that
  can be NaN or ±Infinity are modelled by the type `JSNum` below; machine
  floats are idealised as exact rationals (none of the verified properties
  depend on rounding).  Callback-shaped APIs are modelled as pure functions
  returning the value that the callback would receive.
-/
import Mathlib

namespace SimpleCrawler

/-! ## JavaScript numbers (NaN / ±Infinity aware) -/

/-- A JavaScript number: NaN, +Infinity, -Infinity, or a finite value
(idealised as a rational). -/
inductive JSNum where
  | nan
  | inf
  | ninf
  | fin (q : ℚ)
  deriving DecidableEq, Repr

/-- The JavaScript `<` comparison: any comparison with NaN is false. -/
def jsLt : JSNum → JSNum → Bool
  | .nan, _ => false
  | _, .nan => false
  | .inf, _ => false
  | .ninf, .ninf => false
  | .ninf, _ => true
  | .fin _, .ninf => false
  | .fin _, .inf => true
  | .fin a, .fin b => decide (a < b)

/-- The JavaScript `>` comparison. -/
def jsGt (a b : JSNum) : Bool := jsLt b a

/-- `Number.isFinite`. -/
def JSNum.isFinite : JSNum → Bool
  | .fin _ => true
  | _ => false

def JSNum.isNan : JSNum → Bool
  | .nan => true
  | _ => false

/-- Map a non-NaN JS number into the linear order `WithBot (WithTop ℚ)`
(used only in proofs about the statistics folds). -/
def JSNum.toE : JSNum → WithBot (WithTop ℚ)
  | .nan => ⊥    -- arbitrary; never used on NaN
  | .ninf => ⊥
  | .inf => (⊤ : WithTop ℚ)
  | .fin q => ((q : WithTop ℚ) : WithBot (WithTop ℚ))

/-! ## Queue item statuses

`src/queue.ts` declares the enum `QueueItemStatus`; the crawler additionally
uses the raw status strings "timeout", "disallowed", "downloadprevented",
"downloaded" and "created" in `queue.update` calls and in `processURL`. -/

inductive Status where
  | created
  | queued
  | spooled
  | headers
  | download
  | redirected
  | notfound
  | failed
  | timeout
  | disallowed
  | downloadprevented
  | downloaded
  deriving DecidableEq, Repr

/-- The terminal statuses named by the specification: once `fetched=true`,
the spec says `status` is one of these. -/
def terminalStatuses : List Status :=
  [.downloaded, .redirected, .notfound, .failed, .timeout, .disallowed,
   .downloadprevented]

/-! ## State data (`stateData` bag of a queue item)

Only the five whitelisted numeric statistics are relevant to the verified
claims; each is a JavaScript number and starts out absent (`undefined`),
which behaves exactly like NaN in the `<`/`>`/`Number.isFinite` tests of
`max`/`min`/`avg`. -/

structure StateData where
  actualDataSize : JSNum := .nan
  contentLength : JSNum := .nan
  downloadTime : JSNum := .nan
  requestLatency : JSNum := .nan
  requestTime : JSNum := .nan
  deriving DecidableEq, Repr

/-- `item.stateData[statisticName]` for the five whitelisted names
(anything else is `undefined`, i.e. NaN-like; unreachable after the
whitelist check in `max`/`min`/`avg`). -/
def StateData.getStat (sd : StateData) (name : String) : JSNum :=
  if name = "actualDataSize" then sd.actualDataSize
  else if name = "contentLength" then sd.contentLength
  else if name = "downloadTime" then sd.downloadTime
  else if name = "requestLatency" then sd.requestLatency
  else if name = "requestTime" then sd.requestTime
  else .nan

/-! ## Queue items -/

/-- A queue item.  `ref` models JavaScript object identity (reference
equality), which `FetchQueue.add` tests via `Array.prototype.includes`. -/
structure QueueItem where
  ref : Nat
  url : String
  id : Nat := 0
  status : Status := .created
  fetched : Bool := false
  stateData : StateData := {}
  deriving DecidableEq, Repr

/-- Placeholder item used as the (unreachable) default of list lookups. -/
def dummyItem : QueueItem := { ref := 0, url := "" }

/-! ## FetchQueue (src/queue.ts)

The TS class extends `Array<QueueItem>` and carries a scan index
(`Set<string>`) plus the oldest-unfetched cursor.  The cursor is a JS
number; it is non-negative in every reachable state except after
`defrost([])`, an edge case outside every claim, so we model it as `Nat`
(`defrost` uses truncated subtraction for `length - 1`). -/

structure FetchQueue where
  items : List QueueItem := []
  scanIndex : List String := []
  oldestUnfetchedIndex : Nat := 0
  deriving DecidableEq, Repr

/-- `Set.add` on the scan index. -/
def scanInsert (s : List String) (url : String) : List String :=
  if s.contains url then s else s ++ [url]

/-- `FetchQueue.exists(url, cb)`: the callback receives
`this._scanIndex.has(url)`. -/
def FetchQueue.existsUrl (q : FetchQueue) (url : String) : Bool :=
  q.scanIndex.contains url

/-- Result delivered to the `add` callback. -/
inductive AddResult where
  | ok (item : QueueItem)
  | error (message : String) (code : Option String)
  deriving DecidableEq, Repr

/-- The `addToQueue` closure inside `FetchQueue.add`: records the URL in
the scan index, assigns `id = this.length`, sets status `queued`, pushes
and calls back with the item. -/
def FetchQueue.addToQueue (q : FetchQueue) (item : QueueItem) :
    FetchQueue × QueueItem :=
  let item' := { item with id := q.items.length, status := .queued }
  ({ q with
      scanIndex := scanInsert q.scanIndex item.url,
      items := q.items ++ [item'] },
   item')

/-- `FetchQueue.add(queueItem, force, callback)` from src/queue.ts. -/
def FetchQueue.add (q : FetchQueue) (item : QueueItem) (force : Bool) :
    FetchQueue × AddResult :=
  if ¬ q.existsUrl item.url then
    let (q', item') := q.addToQueue item
    (q', .ok item')
  else if force then
    if q.items.any (fun it => it.ref = item.ref) then
      (q, .error "Can't add a queueItem instance twice. You may create a new one from the same URL however." none)
    else
      let (q', item') := q.addToQueue item
      (q', .ok item')
  else
    (q, .error "Resource already exists in queue!" (some "DUPLICATE"))

/-- The scan loop of `oldestUnfetchedItem`, walking the remaining items
while carrying the running index. -/
def firstQueuedFromAux : List QueueItem → Nat → Option Nat
  | [], _ => none
  | it :: rest, i =>
      if it.status = .queued then some i
      else firstQueuedFromAux rest (i + 1)

/-- The scan loop of `oldestUnfetchedItem`: first index `≥ i` whose item
has status `queued`. -/
def firstQueuedFrom (items : List QueueItem) (i : Nat) : Option Nat :=
  firstQueuedFromAux (items.drop i) i

/-- `FetchQueue.oldestUnfetchedItem(callback)`: scans forward from the
cursor; on a hit the cursor is set to the found index and the callback
receives the item; otherwise the callback receives `(null, null)` (never
an error). -/
def FetchQueue.oldestUnfetchedItem (q : FetchQueue) :
    FetchQueue × Option QueueItem :=
  match firstQueuedFrom q.items q.oldestUnfetchedIndex with
  | some i =>
      ({ q with oldestUnfetchedIndex := i },
       some (q.items.getD i dummyItem))
  | none => (q, none)

/-! ### `update` (deep-assign of an updates object onto the item found by id)

Only the fields that the crawler actually passes to `queue.update` are
modelled (`status`, `fetched` and the numeric `stateData` statistics);
none of the omitted keys can influence a status scan or the cursor. -/

structure StateDataUpdates where
  actualDataSize : Option JSNum := none
  contentLength : Option JSNum := none
  downloadTime : Option JSNum := none
  requestLatency : Option JSNum := none
  requestTime : Option JSNum := none
  deriving DecidableEq, Repr

def StateData.applyUpdates (sd : StateData) (u : StateDataUpdates) : StateData :=
  { actualDataSize := u.actualDataSize.getD sd.actualDataSize,
    contentLength := u.contentLength.getD sd.contentLength,
    downloadTime := u.downloadTime.getD sd.downloadTime,
    requestLatency := u.requestLatency.getD sd.requestLatency,
    requestTime := u.requestTime.getD sd.requestTime }

structure ItemUpdates where
  status : Option Status := none
  fetched : Option Bool := none
  stateData : StateDataUpdates := {}
  deriving DecidableEq, Repr

def QueueItem.applyUpdates (it : QueueItem) (u : ItemUpdates) : QueueItem :=
  { it with
      status := u.status.getD it.status,
      fetched := u.fetched.getD it.fetched,
      stateData := it.stateData.applyUpdates u.stateData }

/-- `FetchQueue.update(id, updates, cb)`: linear scan for the first item
with the given id, deep-assigns the updates into it. -/
def FetchQueue.update (q : FetchQueue) (id : Nat) (u : ItemUpdates) :
    FetchQueue × Option QueueItem :=
  match q.items.findIdx? (fun it => it.id = id) with
  | none => (q, none)
  | some i =>
      let it' := (q.items.getD i dummyItem).applyUpdates u
      ({ q with items := q.items.set i it' }, some it')

/-- `FetchQueue.freeze`'s in-memory effect: every non-fetched item is
re-queued (`status := queued`) before serialisation. -/
def FetchQueue.freezeRequeue (q : FetchQueue) : FetchQueue :=
  { q with
      items := q.items.map (fun it =>
        if ¬ it.fetched then { it with status := .queued } else it) }

/-- `FetchQueue.defrost`'s in-memory effect on an already-parsed item list:
reset the cursor to `length - 1` and the scan index to empty, then push
each item, record its URL, and lower the cursor to the item's index when
the item is `queued` and the cursor is still larger. -/
def FetchQueue.defrost (q : FetchQueue) (data : List QueueItem) : FetchQueue :=
  let init : FetchQueue :=
    { q with oldestUnfetchedIndex := data.length - 1, scanIndex := [] }
  data.enum.foldl
    (fun acc (p : Nat × QueueItem) =>
      { acc with
          items := acc.items ++ [p.2],
          scanIndex := scanInsert acc.scanIndex p.2.url,
          oldestUnfetchedIndex :=
            if p.2.status = .queued ∧ acc.oldestUnfetchedIndex > p.1
            then p.1 else acc.oldestUnfetchedIndex })
    init

/-! ### Statistics (`max`, `min`, `avg`) -/

/-- The `_allowedStatistics` whitelist set up in the constructor. -/
def allowedStatistics : List String :=
  ["actualDataSize", "contentLength", "downloadTime", "requestLatency",
   "requestTime"]

/-- `FetchQueue.max(statisticName, cb)`. -/
def FetchQueue.maxStat (q : FetchQueue) (name : String) :
    Except String JSNum :=
  if ¬ allowedStatistics.contains name then .error "Invalid statistic"
  else .ok (q.items.foldl
    (fun maximum it =>
      if it.fetched ∧ jsGt (it.stateData.getStat name) maximum
      then it.stateData.getStat name else maximum)
    (.fin 0))

/-- `FetchQueue.min(statisticName, cb)`. -/
def FetchQueue.minStat (q : FetchQueue) (name : String) :
    Except String JSNum :=
  if ¬ allowedStatistics.contains name then .error "Invalid statistic"
  else
    let minimum := q.items.foldl
      (fun minimum it =>
        if it.fetched ∧ jsLt (it.stateData.getStat name) minimum
        then it.stateData.getStat name else minimum)
      (.inf)
    .ok (if minimum = .inf then .fin 0 else minimum)

/-- `FetchQueue.avg(statisticName, cb)`: sums the finite values of fetched
items; `sum / count` is NaN when `count = 0`. -/
def FetchQueue.avgStat (q : FetchQueue) (name : String) :
    Except String JSNum :=
  if ¬ allowedStatistics.contains name then .error "Invalid statistic"
  else
    let sc := q.items.foldl
      (fun (sc : ℚ × Nat) it =>
        match it.stateData.getStat name with
        | .fin v => if it.fetched then (sc.1 + v, sc.2 + 1) else sc
        | _ => sc)
      (0, 0)
    .ok (if sc.2 = 0 then .nan else .fin (sc.1 / sc.2))

/-! ## Cookies (src/cookies.ts)

String manipulation is modelled on `List Char`.  The JavaScript `Date`
functions (`new Date(ms).toUTCString()` and `new Date(str).getTime()`) are
platform built-ins, not repository code; the cookie functions therefore
take them as parameters (`utcString` / `parseDate`).  Every verified
statement below is independent of those parameters. -/

/-- The characters matched by `\s` in the strings at hand (JS `\s` also
matches further Unicode whitespace, none of which occurs here). -/
def isWsJS (c : Char) : Bool :=
  c = ' ' ∨ c = '\t' ∨ c = '\n' ∨ c = '\r' ∨ c = '\x0b' ∨ c = '\x0c'

def trimLeftWs (l : List Char) : List Char := l.dropWhile isWsJS

def trimRightWs (l : List Char) : List Char :=
  (l.reverse.dropWhile isWsJS).reverse

/-- Split a character list at every occurrence of `sep` (the pieces do not
contain `sep`; n separators yield n+1 pieces, like JS `String.split`). -/
def splitOnChar (sep : Char) : List Char → List (List Char)
  | [] => [[]]
  | c :: cs =>
    match splitOnChar sep cs with
    | [] => [[c]]
    | r :: rs => if c = sep then [] :: r :: rs else (c :: r) :: rs

/-- Inverse of `splitOnChar`: re-join pieces with the separator
(JS `Array.prototype.join`). -/
def joinChar (sep : Char) : List (List Char) → List Char
  | [] => []
  | [p] => p
  | p :: ps => p ++ sep :: joinChar sep ps

/-- Piece-trimming of a `;`-split: whitespace around each separator
belongs to the separator, so every piece is trimmed on both sides except
that the very first piece keeps its leading and the very last its
trailing whitespace.  The boolean says whether the head of the remaining
list is the first piece. -/
def splitSemiPieces : Bool → List (List Char) → List (List Char)
  | _, [] => []
  | isFirst, [p] => [if isFirst then p else trimLeftWs p]
  | isFirst, p :: ps =>
      trimRightWs (if isFirst then p else trimLeftWs p)
        :: splitSemiPieces false ps

/-- JS `str.split(/\s*;\s*/)`: equivalent to splitting at `;` and
consuming the whitespace adjacent to each separator. -/
def splitSemiJS (s : String) : List String :=
  (splitSemiPieces true (splitOnChar ';' s.data)).map String.mk

/-- JS `str.replace(/^\s*set-cookie\s*:\s*/i, "")`: strip an optional
leading `Set-Cookie:` header name (case-insensitive, whitespace-tolerant);
if the pattern does not match, the string is unchanged. -/
def stripSetCookiePrefix (s : String) : String :=
  let rec matchCI : List Char → List Char → Option (List Char)
    | [], rest => some rest
    | _, [] => none
    | p :: ps, c :: cs => if c.toLower = p then matchCI ps cs else none
  let l₁ := trimLeftWs s.data
  match matchCI "set-cookie".data l₁ with
  | none => s
  | some l₂ =>
    match trimLeftWs l₂ with
    | ':' :: l₃ => String.mk (trimLeftWs l₃)
    | _ => s

/-- `parseKeyVal` from `Cookie.fromString`: the key is the part before the
first `=`, the value the rest (re-joined with `=`). -/
def parseKeyVal (input : String) : String × String :=
  let parts := splitOnChar '=' input.data
  (String.mk (parts.headD []), String.mk (joinChar '=' (parts.tail)))

/-- Attribute-key normalisation:
`String(key).toLowerCase().replace(/[^a-z0-9]/ig, "")`. -/
def attrKey (s : String) : String :=
  String.mk ((s.data.map Char.toLower).filter
    (fun c => ('a' ≤ c ∧ c ≤ 'z') ∨ ('0' ≤ c ∧ c ≤ '9')))

/-- Does a part survive the
`filter((input) => Boolean(input.replace(/\s+/ig, "").length))` test? -/
def hasNonWs (s : String) : Bool := s.data.any (fun c => ¬ isWsJS c)

/-- Assignment `obj[key] = val` on an association list (later assignments
overwrite earlier ones, insertion order preserved). -/
def assocSet (m : List (String × String)) (k v : String) :
    List (String × String) :=
  if m.any (fun p => p.1 = k) then
    m.map (fun p => if p.1 = k then (k, v) else p)
  else m ++ [(k, v)]

def assocGet (m : List (String × String)) (k : String) : Option String :=
  (m.find? (fun p => p.1 = k)).map (fun p => p.2)

def assocHas (m : List (String × String)) (k : String) : Bool :=
  m.any (fun p => p.1 = k)

/-- JS `a || b` on possibly-undefined strings (the empty string is falsy). -/
def jsOrStr (a b : Option String) : Option String :=
  match a with
  | some s => if s ≠ "" then some s else b
  | none => b

structure Cookie where
  name : String
  value : String
  expires : Int
  path : String
  domain : String
  httponly : Bool
  deriving DecidableEq, Repr

/-- The `expires` argument of the `Cookie` constructor: a number, a string,
or absent (JS `undefined`, which selects the default `-1`). -/
inductive ExpiresArg where
  | num (n : Int)
  | str (s : String)
  | undef
  deriving DecidableEq, Repr

/-- The `Cookie` constructor.  `value`/`path`/`domain` are `none` when the
JS argument is `undefined` (default parameters `""`, `"/"`, `"*"`); a falsy
`expires` (0, "", undefined) becomes `-1`; a string `expires` is parsed
through `parseDate` (JS `new Date(str).getTime()`). -/
def cookieNew (parseDate : String → Int) (name : String)
    (value : Option String := none) (expires : ExpiresArg := .undef)
    (path : Option String := none) (domain : Option String := none)
    (httponly : Bool := false) : Except String Cookie :=
  if name = "" then .error "A name is required to create a cookie."
  else
    let expiresVal : Int :=
      match expires with
      | .undef => -1
      | .num n => if n = 0 then -1 else n
      | .str s => if s = "" then -1 else parseDate s
    .ok { name := name, value := value.getD "", expires := expiresVal,
          path := path.getD "/", domain := domain.getD "*",
          httponly := httponly }

/-- `Cookie.toOutboundString`. -/
def Cookie.toOutboundString (c : Cookie) : String := c.name ++ "=" ++ c.value

/-- `Cookie.toString(includeHeader)` (Set-Cookie serialisation).
`utcString` stands for `new Date(ms).toUTCString()`. -/
def Cookie.toStringJS (utcString : Int → String) (c : Cookie)
    (includeHeader : Bool) : String :=
  let res := if includeHeader then "Set-Cookie: " else ""
  let res := res ++ c.toOutboundString ++ "; "
  let res := res ++
    (if c.expires > 0 then "Expires=" ++ utcString c.expires ++ "; " else "")
  let res := res ++ (if c.path ≠ "" then "Path=" ++ c.path ++ "; " else "")
  let res := res ++
    (if c.domain ≠ "" then "Domain=" ++ c.domain ++ "; " else "")
  let res := res ++ (if c.httponly then "Httponly; " else "")
  res

/-- The tail of `Cookie.fromString` once the header is stripped and the
string is split: take `name=value` from the first segment, normalise the
remaining attribute keys, then construct through the `Cookie` constructor
(`expires` falls back to `expiry`; `httponly` is presence-tested). -/
def cookieFromParts (parseDate : String → Int) (parts : List String) :
    Except String Cookie :=
  let nm := parseKeyVal (parts.headD "")
  let init : List (String × String) := [("name", nm.1), ("value", nm.2)]
  let kv := ((parts.tail.filter hasNonWs).map parseKeyVal).foldl
    (fun m p => assocSet m (attrKey p.1) p.2) init
  let expiresArg : ExpiresArg :=
    match jsOrStr (assocGet kv "expires") (assocGet kv "expiry") with
    | none => .undef
    | some s => .str s
  cookieNew parseDate ((assocGet kv "name").getD "")
    (some ((assocGet kv "value").getD "")) expiresArg
    (assocGet kv "path") (assocGet kv "domain") (assocHas kv "httponly")

/-- `Cookie.fromString(str)`: reject the empty string, strip an optional
`Set-Cookie:` header name, split on `;` and build the cookie from the
segments. -/
def Cookie.fromStringJS (parseDate : String → Int) (str : String) :
    Except String Cookie :=
  if str = "" then .error "String must be supplied to generate a cookie."
  else cookieFromParts parseDate (splitSemiJS (stripSetCookiePrefix str))

/-- `Cookie.isExpired` (`now` stands for `Date.now()`). -/
def Cookie.isExpired (c : Cookie) (now : Int) : Bool :=
  if c.expires < 0 then false else decide (c.expires < now)

/-- `Cookie.matchDomain(domain)`: wildcard, or the reversed stored domain
starts with the reversed candidate domain. -/
def Cookie.matchDomain (c : Cookie) (domain : String) : Bool :=
  if c.domain = "*" then true
  else
    let reverseDomain := c.domain.data.reverse
    let reverseDomainComp := domain.data.reverse
    reverseDomainComp.isPrefixOf reverseDomain

/-- Modelled from the spec (for comparison with the code): "the stored
domain must be a suffix of the candidate domain (compared reversed)". -/
def matchDomainSpec (c : Cookie) (domain : String) : Bool :=
  if c.domain = "*" then true
  else c.domain.data.reverse.isPrefixOf domain.data.reverse

/-! ## Crawler (src/crawler.ts) -/

/-! ### Admission / download conditions (`async.every` aggregation)

Each condition either calls back with an error, or with a boolean result;
`async.every` stops at the first error or the first falsy result. -/

inductive CondOutcome where
  | err
  | ok (pass : Bool)
  deriving DecidableEq, Repr

/-- `async.every` over the condition outcomes. -/
def asyncEvery : List CondOutcome → CondOutcome
  | [] => .ok true
  | .err :: _ => .err
  | .ok false :: _ => .ok false
  | .ok true :: rest => asyncEvery rest

/-! ### `Crawler.queueURL` (src/crawler.ts lines 1482–1537)

The URL-processor output, the domain check and the robots check are passed
in as the values the corresponding calls would return (`processURL`,
`domainValid`, `urlIsAllowed` involve an external URL library, regexes and
cached robots rules); the queue add is the actual `FetchQueue.add`. -/

inductive QueueURLEvent where
  | invaliddomain
  | fetchdisallowed
  | fetchconditionerror
  | fetchprevented
  | queueduplicate
  | queueerror
  | queueadd
  deriving DecidableEq, Repr

/-- `Crawler.queueURL`: returns the updated queue, the emitted events (in
order) and the method's boolean return value. -/
def queueURL (q : FetchQueue) (parsed : Option QueueItem)
    (domainOk urlAllowed : Bool) (conds : List CondOutcome) (force : Bool) :
    FetchQueue × List QueueURLEvent × Bool :=
  match parsed with
  | none => (q, [], false)
  | some queueItem =>
    if ¬ domainOk then (q, [.invaliddomain], false)
    else if ¬ urlAllowed then (q, [.fetchdisallowed], false)
    else
      match asyncEvery conds with
      | .err => (q, [.fetchconditionerror], true)
      | .ok false => (q, [.fetchprevented], true)
      | .ok true =>
        match q.add queueItem force with
        | (q', .ok _) => (q', [.queueadd], true)
        | (q', .error _ code) =>
          match code with
          | some c =>
            if c ≠ "" ∧ c = "DUPLICATE" then (q', [.queueduplicate], true)
            else (q', [.queueerror], true)
          | none => (q', [.queueerror], true)

/-! ### `Crawler.handleResponse` (src/crawler.ts lines 1662–2006)

The effect on the item's `(fetched, status)` pair, as a function of the
response data and the relevant crawler configuration.  `dataCompleted`
states whether the response `end` event fired so `processReceivedData`
ran (when it did not — e.g. the connection was destroyed mid-stream on an
over-size chunk — no further update happens). -/

structure HRInput where
  statusCode : Int
  hasLocation : Bool
  /-- `parseInt(content-length)` with NaN already replaced by 0. -/
  responseLength : Int
  maxResourceSize : Int
  downloadConditions : List CondOutcome
  downloadUnsupported : Bool
  /-- Is `response.headers["content-type"]` a truthy string? -/
  hasContentType : Bool
  mimeSupported : Bool
  dataCompleted : Bool
  deriving DecidableEq, Repr

/-- The `(fetched, status)` pair of the queue item after `handleResponse`,
given its value `st` for `status` on entry (the caller `fetchQueueItem`
sets it to `spooled`) and `fetched = false` on entry. -/
def handleResponseItemState (inp : HRInput) (st : Status) : Bool × Status :=
  if inp.responseLength > inp.maxResourceSize then
    (true, st)
  else if 200 ≤ inp.statusCode ∧ inp.statusCode < 300 then
    match asyncEvery inp.downloadConditions with
    | .err => (false, st)
    | .ok false => (true, .downloadprevented)
    | .ok true =>
      if inp.downloadUnsupported ∨ (inp.hasContentType ∧ inp.mimeSupported)
      then
        if inp.dataCompleted then (true, .downloaded) else (false, .headers)
      else (true, .headers)
  else if inp.statusCode = 304 then
    (true, st)
  else if inp.statusCode ≠ 0 ∧ 300 ≤ inp.statusCode ∧ inp.statusCode < 400
          ∧ inp.hasLocation then
    (true, .redirected)
  else if inp.statusCode = 404 ∨ inp.statusCode = 410 then
    (true, .notfound)
  else
    (true, .failed)

/-- The `queue.update` payload of the request-timeout handler
(src/crawler.ts lines 1600–1603). -/
def timeoutUpdate : Bool × Status := (true, .timeout)

/-- The `queue.update` payload of the socket-error handler
(src/crawler.ts lines 1624–1629). -/
def clientErrorUpdate : Bool × Status := (true, .failed)

/-- The `queue.update` payload of the robots double-check in the crawl
interval (src/crawler.ts lines 1327–1330). -/
def disallowedUpdate : Bool × Status := (true, .disallowed)

/-! ### `Crawler.getRequestOptions`: the Host header
(src/crawler.ts lines 761–776).  `port` is `Number(newUrl.port())`, 0 when
the URL carries no port (falsy). -/

def hostHeader (protocol host : String) (port : Int) : String :=
  let isStandardHTTPPort := protocol = "http" ∧ port ≠ 80
  let isStandardHTTPSPort := protocol = "https" ∧ port ≠ 443
  let isStandardPort := isStandardHTTPPort ∨ isStandardHTTPSPort
  host ++ (if port ≠ 0 ∧ isStandardPort then ":" ++ toString port else "")

/-! ### `Crawler.wait` (src/crawler.ts lines 1139–1159)

`wait()` increments `_openListeners` and creates a shared `cleared` flag;
both the TTL timeout callback and the returned release function decrement
the counter only when the flag is still unset, and set it. -/

structure WaitState where
  cleared : Bool
  openListeners : Int
  deriving DecidableEq, Repr

/-- The two things that can happen after `wait()` returned: the TTL
timeout fires, or the release function is invoked.  Their effect on the
shared state is the same guarded decrement. -/
inductive WaitEvent where
  | timeoutFire
  | release
  deriving DecidableEq, Repr

/-- State right after a `wait()` call on a crawler whose counter was `n`:
the counter is incremented once, the flag is fresh. -/
def waitInit (n : Int) : WaitState := ⟨false, n + 1⟩

def waitStep (s : WaitState) : WaitEvent → WaitState
  | _ => if s.cleared then s else ⟨true, s.openListeners - 1⟩

def waitRun (s : WaitState) (evs : List WaitEvent) : WaitState :=
  evs.foldl waitStep s

/-! ## Spec-side reference definitions and concrete inputs -/

/-- Modelled from the spec (for comparison with the code): the `max`
aggregate "computed over items with `fetched=true`, treating only finite
values"; an empty contributing set yields 0. -/
def specMaxStat (q : FetchQueue) (name : String) : Except String JSNum :=
  if ¬ allowedStatistics.contains name then .error "Invalid statistic"
  else
    let vals := q.items.filterMap (fun it =>
      if it.fetched then
        match it.stateData.getStat name with
        | .fin v => some v
        | _ => none
      else none)
    .ok (.fin (match vals with
      | [] => 0
      | v :: vs => vs.foldl max v))

/-- The finite statistic values of fetched items (the contributing set the
spec describes for `avg`, and the one it claims for `max`/`min`). -/
def finiteFetchedVals (q : FetchQueue) (name : String) : List ℚ :=
  q.items.filterMap (fun it =>
    if it.fetched then
      match it.stateData.getStat name with
      | .fin v => some v
      | _ => none
    else none)

/-- All statistic values (JS numbers, NaN for absent) of fetched items. -/
def fetchedVals (q : FetchQueue) (name : String) : List JSNum :=
  q.items.filterMap (fun it =>
    if it.fetched then some (it.stateData.getStat name) else none)

/-! ### Operation sequences on a FetchQueue (for the cursor claims) -/

inductive QueueOp where
  | add (item : QueueItem) (force : Bool)
  | update (id : Nat) (u : ItemUpdates)
  | oldestUnfetched
  | freeze
  | defrost (data : List QueueItem)
  deriving Repr

def QueueOp.isDefrost : QueueOp → Bool
  | .defrost _ => true
  | _ => false

/-- The state transition each queue operation performs. -/
def stepOp (q : FetchQueue) : QueueOp → FetchQueue
  | .add item force => (q.add item force).1
  | .update id u => (q.update id u).1
  | .oldestUnfetched => q.oldestUnfetchedItem.1
  | .freeze => q.freezeRequeue
  | .defrost data => q.defrost data

def runOps (q : FetchQueue) (ops : List QueueOp) : FetchQueue :=
  ops.foldl stepOp q

/-! ### Concrete example items and queues (used to instantiate theorems) -/

def exItem : QueueItem := { ref := 1, url := "http://a/" }

def exItemQueued : QueueItem :=
  { ref := 1, url := "http://a/", id := 0, status := .queued }

def exItem2 : QueueItem := { ref := 2, url := "http://a/" }

def exQueue1 : FetchQueue :=
  { items := [exItemQueued], scanIndex := ["http://a/"] }

/-- A queue holding a single fetched item whose only statistic is the
finite negative value `downloadTime = -5`. -/
def qNegStat : FetchQueue :=
  { items := [{ ref := 0, url := "u", id := 0, status := .downloaded,
                fetched := true,
                stateData := { downloadTime := .fin (-5) } }],
    scanIndex := ["u"] }

/-! # Theorems -/

/-! ## C9: the `wait()` counter protocol -/

/-- Once the shared `cleared` flag is set, every further event is a no-op. -/
theorem waitRun_cleared (evs : List WaitEvent) (n : Int) :
    waitRun ⟨true, n⟩ evs = ⟨true, n⟩ := by
  induction evs with
  | nil => rfl
  | cons e rest ih =>
      simp only [waitRun, List.foldl_cons, waitStep, if_pos] at ih ⊢
      exact ih

/-- C9: every `wait()` call increments the open-listeners counter exactly
once, and across all subsequent invocations of the release function and
the TTL timeout it is decremented exactly once in total (zero times when
neither ever runs); repeated or late release calls leave the counter
unchanged, so a single `wait()` never drives the counter below its value
before the call. -/
theorem wait_counter_balanced (n : Int) (evs : List WaitEvent) :
    (waitRun (waitInit n) evs).openListeners
        = (if evs = [] then n + 1 else n)
    ∧ n ≤ (waitRun (waitInit n) evs).openListeners := by
  cases evs with
  | nil =>
      refine ⟨by simp [waitRun, waitInit], ?_⟩
      simp only [waitRun, List.foldl_nil, waitInit]
      omega
  | cons e rest =>
      have h : waitStep (waitInit n) e = ⟨true, n⟩ := by
        simp only [waitStep, waitInit, Bool.false_eq_true, if_false,
          WaitState.mk.injEq, true_and]
        omega
      have hrun : waitRun (waitInit n) (e :: rest) = ⟨true, n⟩ := by
        simp only [waitRun, List.foldl_cons, h]
        exact waitRun_cleared rest n
      refine ⟨?_, ?_⟩ <;> simp [hrun]

/-! ## C8: the Host header port suffix -/

/-- C8: the Host header built by `getRequestOptions` carries the `":port"`
suffix exactly when the port is truthy (non-zero) and differs from the
scheme's default (80 for http, 443 for https), and omits it when the port
equals the scheme default or is absent. -/
theorem host_header_port (host : String) (port : Int) :
    (port ≠ 0 → port ≠ 80 →
        hostHeader "http" host port = host ++ (":" ++ toString port))
  ∧ (port = 0 ∨ port = 80 → hostHeader "http" host port = host)
  ∧ (port ≠ 0 → port ≠ 443 →
        hostHeader "https" host port = host ++ (":" ++ toString port))
  ∧ (port = 0 ∨ port = 443 → hostHeader "https" host port = host) := by
  refine ⟨?_, ?_, ?_, ?_⟩
  · intro h0 h80
    rw [hostHeader, if_pos ⟨h0, Or.inl ⟨rfl, h80⟩⟩]
  · rintro (h | h) <;>
      · rw [hostHeader, if_neg, String.append_empty]
        simp [h]
  · intro h0 h443
    rw [hostHeader, if_pos ⟨h0, Or.inr ⟨rfl, h443⟩⟩]
  · rintro (h | h) <;>
      · rw [hostHeader, if_neg, String.append_empty]
        simp [h]

/-- Witness for C8 at concrete ports. -/
theorem host_header_port_witness :
    hostHeader "http" "example.com" 8080
        = "example.com" ++ (":" ++ toString (8080 : Int))
    ∧ hostHeader "https" "example.com" 443 = "example.com" := by
  refine ⟨(host_header_port "example.com" 8080).1 ?_ ?_,
          (host_header_port "example.com" 443).2.2.2 (Or.inr rfl)⟩ <;> decide

/-! ## C10: falsy `expires` arguments and `isExpired` -/

/-- C10: the Cookie constructor maps every falsy `expires` argument
(omitted, empty string, the number 0) to `-1`, producing a session cookie
that is never expired; `isExpired` is true exactly when the stored
`expires` is ≥ 0 and strictly less than the current time. -/
theorem cookie_falsy_expires (pd : String → Int) (nm : String)
    (v p d : Option String) (hp : Bool) (c : Cookie) (now : Int)
    (hname : nm ≠ "") :
    (∃ ck : Cookie,
        cookieNew pd nm v (.num 0) p d hp = .ok ck
      ∧ cookieNew pd nm v (.str "") p d hp = .ok ck
      ∧ cookieNew pd nm v .undef p d hp = .ok ck
      ∧ ck.expires = -1
      ∧ ∀ t : Int, ck.isExpired t = false)
    ∧ (c.isExpired now = true ↔ 0 ≤ c.expires ∧ c.expires < now) := by
  constructor
  · refine ⟨{ name := nm, value := v.getD "", expires := -1,
              path := p.getD "/", domain := d.getD "*", httponly := hp },
            ?_, ?_, ?_, rfl, ?_⟩
    · simp [cookieNew, hname]
    · simp [cookieNew, hname]
    · simp [cookieNew, hname]
    · intro t
      simp [Cookie.isExpired]
  · by_cases hlt : c.expires < 0
    · simp only [Cookie.isExpired, if_pos hlt, Bool.false_eq_true,
        false_iff]
      omega
    · simp only [Cookie.isExpired, if_neg hlt, decide_eq_true_eq]
      omega

/-- Witness for C10 at a concrete cookie. -/
theorem cookie_falsy_expires_witness :
    ∃ ck : Cookie,
      cookieNew (fun _ => 0) "sid" (some "x") (.num 0) none none false
          = .ok ck
      ∧ ck.expires = -1 ∧ ck.isExpired 12345 = false := by
  obtain ⟨⟨ck, h1, _, _, he, hexp⟩, _⟩ :=
    cookie_falsy_expires (fun _ => 0) "sid" (some "x") none none false
      ⟨"n", "", -1, "/", "*", false⟩ 0 (by decide)
  exact ⟨ck, h1, he, hexp 12345⟩

/-! ## C5: cookie domain matching direction -/

/-- C5 counterexample: the stored domain `"com"` is a suffix of the
candidate `"a.com"`, so the claimed rule predicts a match, but the code
rejects it — `matchDomain` tests the opposite direction (candidate suffix
of stored). -/
theorem cookie_matchDomain_counterexample :
    Cookie.matchDomain ⟨"n", "", -1, "/", "com", false⟩ "a.com" = false
    ∧ matchDomainSpec ⟨"n", "", -1, "/", "com", false⟩ "a.com" = true := by
  constructor <;> decide

/-- C5 (amended): `matchDomain` succeeds iff the stored domain is the
wildcard `"*"` or the CANDIDATE domain is a suffix of the STORED domain
(the code reverses both strings and asks whether the reversed candidate is
a prefix of the reversed stored domain). -/
theorem cookie_matchDomain_amended (c : Cookie) (domain : String) :
    c.matchDomain domain = true
      ↔ (c.domain = "*" ∨ domain.data <:+ c.domain.data) := by
  rw [Cookie.matchDomain]
  by_cases h : c.domain = "*"
  · simp [h]
  · simp [h, List.isPrefixOf_iff_prefix, List.reverse_prefix]

/-! ## C2: FetchQueue.add -/

/-- After a `Set.add`, the scan index contains the URL. -/
theorem scanInsert_contains (s : List String) (u : String) :
    (scanInsert s u).contains u = true := by
  rw [scanInsert]
  by_cases h : s.contains u = true
  · rwa [if_pos h]
  · rw [if_neg h]
    simp

/-- C2: `add(item, force, cb)` — a URL already recorded with `force=false`
fails with the `DUPLICATE`-coded error; a URL already recorded with
`force=true` and the very same object (reference) already stored fails
with the distinct "can't add twice" error (which carries no code);
in every other case the item gets `id = length`, status `queued`, is
appended, its URL is recorded in the scan index, and the callback receives
`(null, item)`. -/
theorem queue_add_cases (q : FetchQueue) (item : QueueItem) (force : Bool) :
    (q.existsUrl item.url = true → force = false →
        q.add item force
          = (q, .error "Resource already exists in queue!"
                  (some "DUPLICATE")))
  ∧ (q.existsUrl item.url = true →
        q.items.any (fun it => it.ref = item.ref) = true →
        q.add item true
          = (q, .error "Can't add a queueItem instance twice. You may create a new one from the same URL however."
                  none))
  ∧ ((q.existsUrl item.url = false ∨
        (force = true ∧ q.items.any (fun it => it.ref = item.ref) = false)) →
        q.add item force
          = ({ q with
                items := q.items ++
                  [{ item with id := q.items.length, status := .queued }],
                scanIndex := scanInsert q.scanIndex item.url },
             .ok { item with id := q.items.length, status := .queued })
        ∧ (scanInsert q.scanIndex item.url).contains item.url = true) := by
  refine ⟨?_, ?_, ?_⟩
  · intro hex hf
    subst hf
    simp [FetchQueue.add, hex]
  · intro hex hinc
    simp [FetchQueue.add, hex, hinc]
  · intro h
    refine ⟨?_, scanInsert_contains _ _⟩
    by_cases hex : q.existsUrl item.url = true
    · rcases h with h | ⟨hf, hinc⟩
      · rw [hex] at h; cases h
      · subst hf
        simp [FetchQueue.add, FetchQueue.addToQueue, hex, hinc]
    · simp only [Bool.not_eq_true] at hex
      simp [FetchQueue.add, FetchQueue.addToQueue, hex]

/-- Witness for C2: the three behaviours at concrete queues.  `exQueue1`
holds one item (ref 1, url "http://a/"); `exItem2` is a different object
with the same URL; `exItemQueued` is the very object stored in
`exQueue1`. -/
theorem queue_add_cases_witness :
    (exQueue1.add exItem2 false).2
      = .error "Resource already exists in queue!" (some "DUPLICATE")
    ∧ (exQueue1.add exItemQueued true).2
      = .error "Can't add a queueItem instance twice. You may create a new one from the same URL however."
          none
    ∧ (FetchQueue.add {} exItem false).2 = .ok exItemQueued := by
  refine ⟨?_, ?_, ?_⟩
  · rw [(queue_add_cases exQueue1 exItem2 false).1 (by decide) rfl]
  · rw [(queue_add_cases exQueue1 exItemQueued true).2.1
      (by decide) (by decide)]
  · rw [((queue_add_cases {} exItem false).2.2 (Or.inl (by decide))).1]
    decide

/-! ## C3: queueURL check order and events -/

/-- C3: `queueURL` runs its checks in the fixed order parse → domainValid
→ urlIsAllowed → fetch conditions → queue add; each rejection emits the
specified single event and stops (the result is independent of all later
checks, which is expressed by the right-hand sides not mentioning them);
a `DUPLICATE`-coded add error emits `queueduplicate`, any other add error
`queueerror`, and a successful add `queueadd`; at most one event fires per
call. -/
theorem queueURL_check_order (q : FetchQueue) (it : QueueItem)
    (parsed : Option QueueItem) (domainOk urlAllowed : Bool)
    (conds : List CondOutcome) (force : Bool) :
    (queueURL q none domainOk urlAllowed conds force = (q, [], false))
  ∧ (domainOk = false →
      queueURL q (some it) domainOk urlAllowed conds force
        = (q, [.invaliddomain], false))
  ∧ (domainOk = true → urlAllowed = false →
      queueURL q (some it) domainOk urlAllowed conds force
        = (q, [.fetchdisallowed], false))
  ∧ (domainOk = true → urlAllowed = true → asyncEvery conds = .err →
      queueURL q (some it) domainOk urlAllowed conds force
        = (q, [.fetchconditionerror], true))
  ∧ (domainOk = true → urlAllowed = true → asyncEvery conds = .ok false →
      queueURL q (some it) domainOk urlAllowed conds force
        = (q, [.fetchprevented], true))
  ∧ (domainOk = true → urlAllowed = true → asyncEvery conds = .ok true →
      (∀ q₂ x, q.add it force = (q₂, .ok x) →
          queueURL q (some it) domainOk urlAllowed conds force
            = (q₂, [.queueadd], true))
      ∧ (∀ q₂ msg, q.add it force = (q₂, .error msg (some "DUPLICATE")) →
          queueURL q (some it) domainOk urlAllowed conds force
            = (q₂, [.queueduplicate], true))
      ∧ (∀ q₂ msg c, q.add it force = (q₂, .error msg (some c)) →
          c ≠ "DUPLICATE" →
          queueURL q (some it) domainOk urlAllowed conds force
            = (q₂, [.queueerror], true))
      ∧ (∀ q₂ msg, q.add it force = (q₂, .error msg none) →
          queueURL q (some it) domainOk urlAllowed conds force
            = (q₂, [.queueerror], true)))
  ∧ (queueURL q parsed domainOk urlAllowed conds force).2.1.length ≤ 1 := by
  refine ⟨rfl, ?_, ?_, ?_, ?_, ?_, ?_⟩
  · intro hd; subst hd; simp [queueURL]
  · intro hd hu; subst hd; subst hu; simp [queueURL]
  · intro hd hu hc; subst hd; subst hu; simp [queueURL, hc]
  · intro hd hu hc; subst hd; subst hu; simp [queueURL, hc]
  · intro hd hu hc
    subst hd; subst hu
    refine ⟨?_, ?_, ?_, ?_⟩
    · intro q₂ x hadd
      simp [queueURL, hc, hadd]
    · intro q₂ msg hadd
      simp [queueURL, hc, hadd]
    · intro q₂ msg c hadd hne
      simp [queueURL, hc, hadd, hne]
    · intro q₂ msg hadd
      simp [queueURL, hc, hadd]
  · cases parsed with
    | none => simp [queueURL]
    | some p =>
        simp only [queueURL]
        repeat' split
        all_goals simp

/-- Witness for C3: a domain rejection and a successful admission on
concrete inputs. -/
theorem queueURL_check_order_witness :
    queueURL {} (some exItem) false true [] false
      = ({}, [.invaliddomain], false)
    ∧ queueURL {} (some exItem) true true [.ok true] false
      = (exQueue1, [.queueadd], true) := by
  refine ⟨(queueURL_check_order {} exItem (some exItem) false true []
      false).2.1 rfl, ?_⟩
  exact ((queueURL_check_order {} exItem (some exItem) true true [.ok true]
      false).2.2.2.2.2.1 rfl rfl rfl).1 exQueue1 exItemQueued (by decide)

/-! ## C1: fetched=true vs terminal statuses -/

/-- The complete list of `(fetched, status)` outcomes `handleResponse` can
leave on the item. -/
theorem handleResponse_outcomes (inp : HRInput) (st : Status) :
    handleResponseItemState inp st = (true, st)
    ∨ handleResponseItemState inp st = (false, st)
    ∨ handleResponseItemState inp st = (true, .downloadprevented)
    ∨ handleResponseItemState inp st = (true, .downloaded)
    ∨ handleResponseItemState inp st = (false, .headers)
    ∨ handleResponseItemState inp st = (true, .headers)
    ∨ handleResponseItemState inp st = (true, .redirected)
    ∨ handleResponseItemState inp st = (true, .notfound)
    ∨ handleResponseItemState inp st = (true, .failed) := by
  rw [handleResponseItemState]
  repeat' split
  all_goals simp

/-- C1 counterexample: a 304 response within the size cap makes
`handleResponse` set `fetched=true` with no status update, leaving the
item in the non-terminal status `spooled` — contradicting the claim that
the 304 branch leaves a terminal status. -/
theorem handleResponse_terminal_counterexample :
    handleResponseItemState
      { statusCode := 304, hasLocation := false, responseLength := 0,
        maxResourceSize := 16777216, downloadConditions := [],
        downloadUnsupported := true, hasContentType := false,
        mimeSupported := false, dataCompleted := false } .spooled
      = (true, .spooled)
    ∧ Status.spooled ∉ terminalStatuses := by
  exact ⟨by decide, by decide⟩

/-- C1 (amended): whenever `handleResponse` (entered with status
`spooled`) sets `fetched=true` together with a status, that status is
terminal; but the over-size branch and the 304 branch set `fetched=true`
leaving the status `spooled`, and the unsupported-mime-type branch leaves
it `headers` — so after those three branches the item is fetched with a
non-terminal status.  The timeout, socket-error and robots-disallowed
updates always pair `fetched=true` with a terminal status. -/
theorem handleResponse_terminal_amended (inp : HRInput) :
    ((handleResponseItemState inp .spooled).1 = true →
        (handleResponseItemState inp .spooled).2 ∈ terminalStatuses
        ∨ (handleResponseItemState inp .spooled).2 = .spooled
        ∨ (handleResponseItemState inp .spooled).2 = .headers)
  ∧ (inp.responseLength > inp.maxResourceSize →
        handleResponseItemState inp .spooled = (true, .spooled))
  ∧ (inp.responseLength ≤ inp.maxResourceSize → inp.statusCode = 304 →
        handleResponseItemState inp .spooled = (true, .spooled))
  ∧ (inp.responseLength ≤ inp.maxResourceSize →
        200 ≤ inp.statusCode → inp.statusCode < 300 →
        asyncEvery inp.downloadConditions = .ok true →
        inp.downloadUnsupported = false →
        (inp.hasContentType && inp.mimeSupported) = false →
        handleResponseItemState inp .spooled = (true, .headers))
  ∧ ((handleResponseItemState inp .spooled).1 = true →
        (handleResponseItemState inp .spooled).2 ≠ .spooled →
        (handleResponseItemState inp .spooled).2 ≠ .headers →
        (handleResponseItemState inp .spooled).2 ∈ terminalStatuses)
  ∧ timeoutUpdate = (true, .timeout) ∧ Status.timeout ∈ terminalStatuses
  ∧ clientErrorUpdate = (true, .failed)
      ∧ Status.failed ∈ terminalStatuses
  ∧ disallowedUpdate = (true, .disallowed)
      ∧ Status.disallowed ∈ terminalStatuses := by
  refine ⟨?_, ?_, ?_, ?_, ?_, by decide, by decide, by decide, by decide,
    by decide, by decide⟩
  · intro hf
    rcases handleResponse_outcomes inp .spooled with h | h | h | h | h | h
      | h | h | h <;> rw [h] <;> decide
  · intro hover
    rw [handleResponseItemState, if_pos hover]
  · intro hle h304
    have h1 : ¬ (inp.responseLength > inp.maxResourceSize) := by omega
    have h2 : ¬ (200 ≤ inp.statusCode ∧ inp.statusCode < 300) := by omega
    rw [handleResponseItemState, if_neg h1, if_neg h2, if_pos h304]
  · intro hle h200 h300 hconds hdu hmime
    have h1 : ¬ (inp.responseLength > inp.maxResourceSize) := by omega
    rw [handleResponseItemState, if_neg h1, if_pos ⟨h200, h300⟩, hconds]
    have h3 : ¬ (inp.downloadUnsupported = true
        ∨ (inp.hasContentType = true ∧ inp.mimeSupported = true)) := by
      rw [hdu]
      simp only [Bool.and_eq_false_iff] at hmime
      rcases hmime with h | h <;> simp [h]
    rw [if_neg]
    intro hcon
    exact h3 (by simpa using hcon)
  · intro hf hsp hhd
    rcases handleResponse_outcomes inp .spooled with h | h | h | h | h | h
      | h | h | h <;>
      rw [h] at hf hsp hhd ⊢ <;>
      simp_all [terminalStatuses]

/-- Witness for C1's amended theorem: the over-size branch at a concrete
input. -/
theorem handleResponse_terminal_amended_witness :
    handleResponseItemState
      { statusCode := 200, hasLocation := false,
        responseLength := 20000000, maxResourceSize := 16777216,
        downloadConditions := [], downloadUnsupported := true,
        hasContentType := false, mimeSupported := false,
        dataCompleted := false } .spooled
      = (true, .spooled) :=
  (handleResponse_terminal_amended
    { statusCode := 200, hasLocation := false,
      responseLength := 20000000, maxResourceSize := 16777216,
      downloadConditions := [], downloadUnsupported := true,
      hasContentType := false, mimeSupported := false,
      dataCompleted := false }).2.1 (by decide)

/-! ## C4: queue statistics -/

theorem jsLt_self (a : JSNum) : jsLt a a = false := by
  cases a <;> simp [jsLt, lt_irrefl]

theorem jsLt_nan_right (a : JSNum) : jsLt a .nan = false := by
  cases a <;> rfl

theorem jsLt_nan_left (b : JSNum) : jsLt .nan b = false := by
  cases b <;> rfl

/-- A true `<` comparison has no NaN on either side. -/
theorem jsLt_nonNan {a b : JSNum} (h : jsLt a b = true) :
    a.isNan = false ∧ b.isNan = false := by
  cases a <;> cases b <;> simp_all [jsLt, JSNum.isNan]

/-- On non-NaN values, `jsLt` agrees with the linear order
`WithBot (WithTop ℚ)` through `JSNum.toE`. -/
theorem jsLt_eq_toE {a b : JSNum} (ha : a.isNan = false)
    (hb : b.isNan = false) : jsLt a b = true ↔ a.toE < b.toE := by
  cases a <;> cases b <;>
    simp_all [jsLt, JSNum.toE, JSNum.isNan, WithBot.bot_lt_coe,
      WithBot.coe_lt_coe, WithTop.coe_lt_coe, lt_irrefl]
  exact WithBot.coe_lt_coe.mpr (WithTop.coe_lt_top _)

theorem jsLt_false_iff {a b : JSNum} (ha : a.isNan = false)
    (hb : b.isNan = false) : jsLt a b = false ↔ b.toE ≤ a.toE := by
  rw [← not_lt, ← jsLt_eq_toE ha hb]
  simp

/-- Characterisation of the `max` fold: starting from a non-NaN
accumulator, the result is non-NaN, is the accumulator or one of the list
elements, is not below the accumulator, and no element beats it. -/
theorem maxFold_props (l : List JSNum) (acc : JSNum)
    (hacc : acc.isNan = false) :
    (l.foldl (fun a v => if jsGt v a then v else a) acc).isNan = false
  ∧ (l.foldl (fun a v => if jsGt v a then v else a) acc = acc
      ∨ l.foldl (fun a v => if jsGt v a then v else a) acc ∈ l)
  ∧ jsLt (l.foldl (fun a v => if jsGt v a then v else a) acc) acc = false
  ∧ ∀ v ∈ l, jsGt v (l.foldl (fun a v => if jsGt v a then v else a) acc)
      = false := by
  induction l generalizing acc with
  | nil =>
      refine ⟨hacc, Or.inl rfl, jsLt_self acc, ?_⟩
      intro v hv
      cases hv
  | cons w rest ih =>
      simp only [List.foldl_cons]
      by_cases hstep : jsGt w acc = true
      · rw [if_pos hstep]
        rw [jsGt] at hstep
        have hw : w.isNan = false := (jsLt_nonNan hstep).2
        obtain ⟨h1, h2, h3, h4⟩ := ih w hw
        refine ⟨h1, ?_, ?_, ?_⟩
        · rcases h2 with h | h
          · exact Or.inr (by rw [h]; exact List.mem_cons_self w rest)
          · exact Or.inr (List.mem_cons_of_mem w h)
        · have hMw := (jsLt_false_iff h1 hw).mp h3
          have haw := (jsLt_eq_toE hacc hw).mp hstep
          exact (jsLt_false_iff h1 hacc).mpr
            (le_of_lt (lt_of_lt_of_le haw hMw))
        · intro v hv
          rcases List.mem_cons.mp hv with rfl | hv
          · rw [jsGt]
            exact h3
          · exact h4 v hv
      · rw [if_neg hstep]
        rw [jsGt] at hstep
        have hstep' : jsLt acc w = false := by
          revert hstep
          cases jsLt acc w <;> simp
        obtain ⟨h1, h2, h3, h4⟩ := ih acc hacc
        refine ⟨h1, ?_, h3, ?_⟩
        · rcases h2 with h | h
          · exact Or.inl h
          · exact Or.inr (List.mem_cons_of_mem w h)
        · intro v hv
          rcases List.mem_cons.mp hv with rfl | hv
          · rw [jsGt]
            by_cases hvn : v.isNan = true
            · cases v <;> simp_all [JSNum.isNan, jsLt_nan_right]
            · rw [Bool.not_eq_true] at hvn
              have hva := (jsLt_false_iff hacc hvn).mp hstep'
              have hMacc := (jsLt_false_iff h1 hacc).mp h3
              exact (jsLt_false_iff h1 hvn).mpr (le_trans hva hMacc)
          · exact h4 v hv

/-- Characterisation of the `min` fold (dual to `maxFold_props`). -/
theorem minFold_props (l : List JSNum) (acc : JSNum)
    (hacc : acc.isNan = false) :
    (l.foldl (fun a v => if jsLt v a then v else a) acc).isNan = false
  ∧ (l.foldl (fun a v => if jsLt v a then v else a) acc = acc
      ∨ l.foldl (fun a v => if jsLt v a then v else a) acc ∈ l)
  ∧ jsLt acc (l.foldl (fun a v => if jsLt v a then v else a) acc) = false
  ∧ ∀ v ∈ l, jsLt v (l.foldl (fun a v => if jsLt v a then v else a) acc)
      = false := by
  induction l generalizing acc with
  | nil =>
      refine ⟨hacc, Or.inl rfl, jsLt_self acc, ?_⟩
      intro v hv
      cases hv
  | cons w rest ih =>
      simp only [List.foldl_cons]
      by_cases hstep : jsLt w acc = true
      · rw [if_pos hstep]
        have hw : w.isNan = false := (jsLt_nonNan hstep).1
        obtain ⟨h1, h2, h3, h4⟩ := ih w hw
        refine ⟨h1, ?_, ?_, ?_⟩
        · rcases h2 with h | h
          · exact Or.inr (by rw [h]; exact List.mem_cons_self w rest)
          · exact Or.inr (List.mem_cons_of_mem w h)
        · have hwM := (jsLt_false_iff hw h1).mp h3
          have hwa := (jsLt_eq_toE hw hacc).mp hstep
          exact (jsLt_false_iff hacc h1).mpr
            (le_of_lt (lt_of_le_of_lt hwM hwa))
        · intro v hv
          rcases List.mem_cons.mp hv with rfl | hv
          · exact h3
          · exact h4 v hv
      · rw [if_neg hstep]
        have hstep' : jsLt w acc = false := by
          revert hstep
          cases jsLt w acc <;> simp
        obtain ⟨h1, h2, h3, h4⟩ := ih acc hacc
        refine ⟨h1, ?_, h3, ?_⟩
        · rcases h2 with h | h
          · exact Or.inl h
          · exact Or.inr (List.mem_cons_of_mem w h)
        · intro v hv
          rcases List.mem_cons.mp hv with rfl | hv
          · by_cases hvn : v.isNan = true
            · cases v <;> simp_all [JSNum.isNan, jsLt_nan_left]
            · rw [Bool.not_eq_true] at hvn
              have hav := (jsLt_false_iff hvn hacc).mp hstep'
              have haM := (jsLt_false_iff hacc h1).mp h3
              exact (jsLt_false_iff hvn h1).mpr (le_trans haM hav)
          · exact h4 v hv

/-- The item-level fold of `FetchQueue.max` equals the value-level fold
over the fetched statistic values. -/
theorem statFold_max_eq (items : List QueueItem) (name : String)
    (acc : JSNum) :
    items.foldl (fun maximum it =>
        if it.fetched ∧ jsGt (it.stateData.getStat name) maximum
        then it.stateData.getStat name else maximum) acc
    = (items.filterMap (fun it =>
        if it.fetched then some (it.stateData.getStat name) else none)).foldl
        (fun a v => if jsGt v a then v else a) acc := by
  induction items generalizing acc with
  | nil => rfl
  | cons it rest ih =>
      by_cases hf : it.fetched = true
      · simp only [List.foldl_cons, List.filterMap_cons, hf, if_true,
          true_and, List.foldl_cons]
        rw [ih]
      · simp only [Bool.not_eq_true] at hf
        simp only [List.foldl_cons, List.filterMap_cons, hf,
          Bool.false_eq_true, false_and, if_false]
        rw [ih]

/-- The item-level fold of `FetchQueue.min` equals the value-level fold
over the fetched statistic values. -/
theorem statFold_min_eq (items : List QueueItem) (name : String)
    (acc : JSNum) :
    items.foldl (fun minimum it =>
        if it.fetched ∧ jsLt (it.stateData.getStat name) minimum
        then it.stateData.getStat name else minimum) acc
    = (items.filterMap (fun it =>
        if it.fetched then some (it.stateData.getStat name) else none)).foldl
        (fun a v => if jsLt v a then v else a) acc := by
  induction items generalizing acc with
  | nil => rfl
  | cons it rest ih =>
      by_cases hf : it.fetched = true
      · simp only [List.foldl_cons, List.filterMap_cons, hf, if_true,
          true_and, List.foldl_cons]
        rw [ih]
      · simp only [Bool.not_eq_true] at hf
        simp only [List.foldl_cons, List.filterMap_cons, hf,
          Bool.false_eq_true, false_and, if_false]
        rw [ih]

/-- The pair fold of `FetchQueue.avg` accumulates exactly the sum and
count of the finite fetched statistic values. -/
theorem statFold_avg_eq (items : List QueueItem) (name : String) (s : ℚ)
    (c : Nat) :
    items.foldl (fun (sc : ℚ × Nat) it =>
        match it.stateData.getStat name with
        | .fin v => if it.fetched then (sc.1 + v, sc.2 + 1) else sc
        | _ => sc) (s, c)
    = (s + (items.filterMap (fun it =>
          if it.fetched then
            match it.stateData.getStat name with
            | .fin v => some v
            | _ => none
          else none)).sum,
       c + (items.filterMap (fun it =>
          if it.fetched then
            match it.stateData.getStat name with
            | .fin v => some v
            | _ => none
          else none)).length) := by
  induction items generalizing s c with
  | nil => simp
  | cons it rest ih =>
      by_cases hf : it.fetched = true
      · cases hstat : it.stateData.getStat name with
        | fin v =>
            simp only [List.foldl_cons, List.filterMap_cons, hstat, hf,
              if_true, List.sum_cons, List.length_cons]
            rw [ih]
            refine congrArg₂ Prod.mk (by ring) (by omega)
        | nan =>
            simp only [List.foldl_cons, List.filterMap_cons, hstat, hf,
              if_true]
            exact ih s c
        | inf =>
            simp only [List.foldl_cons, List.filterMap_cons, hstat, hf,
              if_true]
            exact ih s c
        | ninf =>
            simp only [List.foldl_cons, List.filterMap_cons, hstat, hf,
              if_true]
            exact ih s c
      · simp only [Bool.not_eq_true] at hf
        cases hstat : it.stateData.getStat name <;>
          simp only [List.foldl_cons, List.filterMap_cons, hstat, hf,
            Bool.false_eq_true, if_false] <;>
          exact ih s c

/-- C4 counterexample: a queue with one fetched item whose `downloadTime`
is the finite value `-5`.  The claimed "aggregate over the finite values"
is `-5`, but `max` answers `0` — its fold starts at 0 and only moves up,
so finite negative values are not aggregated as the claim states. -/
theorem queue_stats_counterexample :
    qNegStat.maxStat "downloadTime" = .ok (.fin 0)
    ∧ specMaxStat qNegStat "downloadTime" = .ok (.fin (-5))
    ∧ (JSNum.fin 0) ≠ (JSNum.fin (-5)) := by
  refine ⟨rfl, rfl, by decide⟩

/-- C4 (amended): unknown statistic names are refused with the
"Invalid statistic" error.  For whitelisted names the folds behave as
follows: `max` returns the JS-maximum of 0 and all non-NaN fetched values
(so `+Infinity` is included and the result is never below 0); `min`
returns the JS-minimum of the non-NaN fetched values, with an untouched
`Infinity` accumulator mapped to 0 at the end (so `-Infinity` can be
returned); only `avg` restricts to finite values — it returns the sum
divided by the count, NaN when no finite fetched value exists. -/
theorem queue_stats_amended (q : FetchQueue) (name : String) :
    (allowedStatistics.contains name = false →
        q.maxStat name = .error "Invalid statistic"
        ∧ q.minStat name = .error "Invalid statistic"
        ∧ q.avgStat name = .error "Invalid statistic")
  ∧ (allowedStatistics.contains name = true →
      (∃ m, q.maxStat name = .ok m
          ∧ m.isNan = false
          ∧ (m = .fin 0 ∨ m ∈ fetchedVals q name)
          ∧ jsLt m (.fin 0) = false
          ∧ ∀ v ∈ fetchedVals q name, jsGt v m = false)
      ∧ (∃ r, q.minStat name = .ok r
          ∧ ((r = .fin 0 ∧ ∀ v ∈ fetchedVals q name, jsLt v .inf = false)
             ∨ (r ∈ fetchedVals q name
                ∧ ∀ v ∈ fetchedVals q name, jsLt v r = false)))
      ∧ q.avgStat name
          = .ok (if finiteFetchedVals q name = [] then .nan
                 else .fin ((finiteFetchedVals q name).sum
                        / ((finiteFetchedVals q name).length : ℚ)))) := by
  constructor
  · intro hno
    have hm : name ∉ allowedStatistics := by simpa using hno
    refine ⟨?_, ?_, ?_⟩ <;>
      simp [FetchQueue.maxStat, FetchQueue.minStat, FetchQueue.avgStat, hm]
  · intro hyes
    have hc : ¬ ¬ (allowedStatistics.contains name = true) := by
      simpa using hyes
    have hmax : q.maxStat name
        = .ok ((fetchedVals q name).foldl
            (fun a v => if jsGt v a then v else a) (.fin 0)) := by
      simp only [FetchQueue.maxStat]
      rw [if_neg hc, statFold_max_eq]
      rfl
    have hmin : q.minStat name
        = .ok (if (fetchedVals q name).foldl
              (fun a v => if jsLt v a then v else a) (.inf) = .inf
            then .fin 0
            else (fetchedVals q name).foldl
              (fun a v => if jsLt v a then v else a) (.inf)) := by
      simp only [FetchQueue.minStat]
      rw [if_neg hc, statFold_min_eq]
      rfl
    have havg : q.avgStat name
        = .ok (if finiteFetchedVals q name = [] then .nan
               else .fin ((finiteFetchedVals q name).sum
                      / ((finiteFetchedVals q name).length : ℚ))) := by
      simp only [FetchQueue.avgStat]
      rw [if_neg hc, statFold_avg_eq]
      simp only [zero_add, Nat.zero_add]
      have hvals : q.items.filterMap (fun it =>
          if it.fetched then
            match it.stateData.getStat name with
            | .fin v => some v
            | _ => none
          else none) = finiteFetchedVals q name := rfl
      rw [hvals]
      by_cases hemp : finiteFetchedVals q name = []
      · simp [hemp]
      · have hlen : (finiteFetchedVals q name).length ≠ 0 := by
          simpa [List.length_eq_zero] using hemp
        simp [hemp, hlen]
    refine ⟨?_, ?_, havg⟩
    · obtain ⟨h1, h2, h3, h4⟩ := maxFold_props (fetchedVals q name)
        (.fin 0) rfl
      exact ⟨_, hmax, h1, h2, h3, h4⟩
    · obtain ⟨h1, h2, h3, h4⟩ := minFold_props (fetchedVals q name)
        (.inf) rfl
      refine ⟨_, hmin, ?_⟩
      by_cases hinf : (fetchedVals q name).foldl
          (fun a v => if jsLt v a then v else a) (.inf) = .inf
      · rw [if_pos hinf]
        exact Or.inl ⟨rfl, fun v hv => by
          have := h4 v hv
          rwa [hinf] at this⟩
      · rw [if_neg hinf]
        rcases h2 with h | h
        · exact absurd h hinf
        · exact Or.inr ⟨h, h4⟩

/-- Witness for C4's amended theorem: statistics of `qNegStat` and of the
empty queue, plus the rejection of an unknown name. -/
theorem queue_stats_amended_witness :
    (FetchQueue.maxStat {} "foo" = .error "Invalid statistic")
    ∧ (∃ r, qNegStat.minStat "downloadTime" = .ok r)
    ∧ qNegStat.avgStat "downloadTime"
        = .ok (if finiteFetchedVals qNegStat "downloadTime" = [] then .nan
               else .fin ((finiteFetchedVals qNegStat "downloadTime").sum
                      / ((finiteFetchedVals qNegStat
                            "downloadTime").length : ℚ))) := by
  refine ⟨((queue_stats_amended {} "foo").1 (by decide)).1, ?_, ?_⟩
  · obtain ⟨r, hr, _⟩ :=
      ((queue_stats_amended qNegStat "downloadTime").2 (by decide)).2.1
    exact ⟨r, hr⟩
  · exact ((queue_stats_amended qNegStat "downloadTime").2 (by decide)).2.2

/-! ## C7: the oldest-unfetched cursor -/

/-- Unfolding equation of the scan loop, exactly mirroring the `for`
loop's step. -/
theorem firstQueuedFrom_rec (items : List QueueItem) (i : Nat) :
    firstQueuedFrom items i
    = if _h : i < items.length then
        if (items.getD i dummyItem).status = .queued then some i
        else firstQueuedFrom items (i + 1)
      else none := by
  by_cases h : i < items.length
  · rw [dif_pos h]
    have hget : items.getD i dummyItem = items[i] := by
      rw [List.getD_eq_getElem items dummyItem h]
    rw [firstQueuedFrom, List.drop_eq_getElem_cons h, firstQueuedFromAux,
      hget, firstQueuedFrom]
  · rw [dif_neg h, firstQueuedFrom]
    have hnil : items.drop i = [] := by
      rw [List.drop_eq_nil_iff]
      omega
    rw [hnil]
    rfl

/-- The scan loop of `oldestUnfetchedItem` finds exactly the first
`queued` index at or after the start index. -/
theorem firstQueuedFrom_spec (items : List QueueItem) (i : Nat) :
    (∀ j, firstQueuedFrom items i = some j →
        i ≤ j ∧ j < items.length
        ∧ (items.getD j dummyItem).status = .queued
        ∧ ∀ k, i ≤ k → k < j → (items.getD k dummyItem).status ≠ .queued)
    ∧ (firstQueuedFrom items i = none →
        ∀ k, i ≤ k → k < items.length →
          (items.getD k dummyItem).status ≠ .queued) := by
  generalize hfuel : items.length - i = fuel
  induction fuel generalizing i with
  | zero =>
      rw [firstQueuedFrom_rec, dif_neg (by omega)]
      constructor
      · intro j hj
        cases hj
      · intro _ k hik hk
        omega
  | succ n ih =>
      have hlt : i < items.length := by omega
      rw [firstQueuedFrom_rec, dif_pos hlt]
      by_cases hq : (items.getD i dummyItem).status = .queued
      · rw [if_pos hq]
        refine ⟨?_, fun h => by cases h⟩
        intro j hj
        cases hj
        exact ⟨le_refl i, hlt, hq, fun k hik hk => by omega⟩
      · rw [if_neg hq]
        obtain ⟨ihs, ihn⟩ := ih (i + 1) (by omega)
        constructor
        · intro j hj
          obtain ⟨h1, h2, h3, h4⟩ := ihs j hj
          refine ⟨by omega, h2, h3, ?_⟩
          intro k hik hk
          rcases Nat.eq_or_lt_of_le hik with rfl | hik'
          · exact hq
          · exact h4 k hik' hk
        · intro hn k hik hk
          rcases Nat.eq_or_lt_of_le hik with rfl | hik'
          · exact hq
          · exact ihn hn k hik' hk

/-- No operation other than `defrost` ever lowers the cursor. -/
theorem stepOp_cursor_mono (q : FetchQueue) (op : QueueOp)
    (h : op.isDefrost = false) :
    q.oldestUnfetchedIndex ≤ (stepOp q op).oldestUnfetchedIndex := by
  cases op with
  | add item force =>
      simp only [stepOp, FetchQueue.add, FetchQueue.addToQueue]
      split_ifs <;> simp
  | update id u =>
      simp only [stepOp, FetchQueue.update]
      cases q.items.findIdx? (fun it => it.id = id) <;> simp
  | oldestUnfetched =>
      simp only [stepOp, FetchQueue.oldestUnfetchedItem]
      cases hf : firstQueuedFrom q.items q.oldestUnfetchedIndex with
      | none => simp
      | some j =>
          simp only
          exact ((firstQueuedFrom_spec q.items q.oldestUnfetchedIndex).1
            j hf).1
  | freeze => exact le_refl _
  | defrost data => simp [QueueOp.isDefrost] at h

/-- Over any defrost-free operation sequence the cursor is monotone. -/
theorem runOps_cursor_mono (q : FetchQueue) (ops : List QueueOp)
    (h : ∀ op ∈ ops, op.isDefrost = false) :
    q.oldestUnfetchedIndex ≤ (runOps q ops).oldestUnfetchedIndex := by
  induction ops generalizing q with
  | nil => exact le_refl _
  | cons op rest ih =>
      refine le_trans (stepOp_cursor_mono q op (h op (List.mem_cons_self _ _)))
        ?_
      exact ih (stepOp q op) (fun o ho => h o (List.mem_cons_of_mem _ ho))

/-- The cursor component of the `defrost` fold, extracted. -/
theorem defrost_fold_cursor (l : List (Nat × QueueItem)) (acc : FetchQueue) :
    (l.foldl
      (fun acc (p : Nat × QueueItem) =>
        { acc with
            items := acc.items ++ [p.2],
            scanIndex := scanInsert acc.scanIndex p.2.url,
            oldestUnfetchedIndex :=
              if p.2.status = .queued ∧ acc.oldestUnfetchedIndex > p.1
              then p.1 else acc.oldestUnfetchedIndex })
      acc).oldestUnfetchedIndex
    = l.foldl
        (fun c (p : Nat × QueueItem) =>
          if p.2.status = .queued ∧ c > p.1 then p.1 else c)
        acc.oldestUnfetchedIndex := by
  induction l generalizing acc with
  | nil => rfl
  | cons p rest ih =>
      simp only [List.foldl_cons]
      rw [ih]

/-- Behaviour of the cursor fold over an enumerated item list: the result
never exceeds the start value, is the start value or an enumerated queued
index, and is a lower bound of all queued indices. -/
theorem cursorFold_props (data : List QueueItem) (n c : Nat) :
    ((List.enumFrom n data).foldl
        (fun c (p : Nat × QueueItem) =>
          if p.2.status = .queued ∧ c > p.1 then p.1 else c) c) ≤ c
  ∧ ((List.enumFrom n data).foldl
        (fun c (p : Nat × QueueItem) =>
          if p.2.status = .queued ∧ c > p.1 then p.1 else c) c = c
      ∨ ∃ k, k < data.length ∧ (data.getD k dummyItem).status = .queued
          ∧ (List.enumFrom n data).foldl
              (fun c (p : Nat × QueueItem) =>
                if p.2.status = .queued ∧ c > p.1 then p.1 else c) c
            = n + k)
  ∧ ∀ k, k < data.length → (data.getD k dummyItem).status = .queued →
        (List.enumFrom n data).foldl
            (fun c (p : Nat × QueueItem) =>
              if p.2.status = .queued ∧ c > p.1 then p.1 else c) c
          ≤ n + k := by
  induction data generalizing n c with
  | nil =>
      refine ⟨le_refl c, Or.inl rfl, ?_⟩
      intro k hk
      simp at hk
  | cons it rest ih =>
      have henum : List.enumFrom n (it :: rest)
          = (n, it) :: List.enumFrom (n + 1) rest := by
        simp [List.enumFrom]
      rw [henum]
      simp only [List.foldl_cons]
      by_cases hq : it.status = .queued ∧ c > n
      · rw [if_pos hq]
        obtain ⟨ha, hb, hc'⟩ := ih (n + 1) n
        refine ⟨le_trans ha (le_of_lt hq.2), ?_, ?_⟩
        · rcases hb with h | ⟨k, hk, hkq, hr⟩
          · right
            refine ⟨0, by simp, by simpa using hq.1, by omega⟩
          · right
            refine ⟨k + 1, by simp; omega, by simpa using hkq, by omega⟩
        · intro k hk hkq
          cases k with
          | zero => simpa using ha
          | succ k =>
              have := hc' k (by simpa using hk) (by simpa using hkq)
              omega
      · rw [if_neg hq]
        obtain ⟨ha, hb, hc'⟩ := ih (n + 1) c
        refine ⟨ha, ?_, ?_⟩
        · rcases hb with h | ⟨k, hk, hkq, hr⟩
          · exact Or.inl h
          · right
            refine ⟨k + 1, by simp; omega, by simpa using hkq, by omega⟩
        · intro k hk hkq
          cases k with
          | zero =>
              have hcn : ¬ c > n := by
                intro hgt
                exact hq ⟨by simpa using hkq, hgt⟩
              have := ha
              omega
          | succ k =>
              have := hc' k (by simpa using hk) (by simpa using hkq)
              omega

/-- C7: the oldest-unfetched cursor.
(1) Each `oldestUnfetchedItem` call returns the first item with status
`queued` at or after the cursor, advancing the cursor to its index, and
calls back `(null, null)` (never an error) when none exists, leaving the
state unchanged.  (2)–(3) Across any defrost-free operation sequence the
cursor never decreases, so successive calls never return an item at a
lower index than an earlier one.  (4) `defrost` into an empty queue
recomputes the cursor as the smallest index whose status is `queued`,
whenever such an index exists. -/
theorem oldest_unfetched_cursor_claims (q : FetchQueue)
    (ops : List QueueOp) (data : List QueueItem) :
    ((q.oldestUnfetchedItem.2 = none →
        q.oldestUnfetchedItem.1 = q
        ∧ ∀ k, q.oldestUnfetchedIndex ≤ k → k < q.items.length →
            (q.items.getD k dummyItem).status ≠ .queued)
    ∧ (∀ it, q.oldestUnfetchedItem.2 = some it →
        ∃ j, q.oldestUnfetchedItem.1.oldestUnfetchedIndex = j
          ∧ q.oldestUnfetchedIndex ≤ j ∧ j < q.items.length
          ∧ q.items.getD j dummyItem = it ∧ it.status = .queued
          ∧ ∀ k, q.oldestUnfetchedIndex ≤ k → k < j →
              (q.items.getD k dummyItem).status ≠ .queued))
  ∧ ((∀ op ∈ ops, op.isDefrost = false) →
      q.oldestUnfetchedIndex ≤ (runOps q ops).oldestUnfetchedIndex)
  ∧ ((∀ op ∈ ops, op.isDefrost = false) →
      q.oldestUnfetchedItem.1.oldestUnfetchedIndex
        ≤ (runOps q.oldestUnfetchedItem.1
            ops).oldestUnfetchedItem.1.oldestUnfetchedIndex)
  ∧ (q.items = [] →
      (∃ k, k < data.length ∧ (data.getD k dummyItem).status = .queued) →
      (q.defrost data).oldestUnfetchedIndex < data.length
      ∧ (data.getD (q.defrost data).oldestUnfetchedIndex dummyItem).status
          = .queued
      ∧ ∀ j, j < (q.defrost data).oldestUnfetchedIndex →
          (data.getD j dummyItem).status ≠ .queued) := by
  refine ⟨⟨?_, ?_⟩, runOps_cursor_mono q ops, ?_, ?_⟩
  · intro hn
    rw [FetchQueue.oldestUnfetchedItem] at hn ⊢
    cases hf : firstQueuedFrom q.items q.oldestUnfetchedIndex with
    | some j => rw [hf] at hn; simp at hn
    | none =>
        rw [hf] at hn
        exact ⟨rfl, (firstQueuedFrom_spec q.items q.oldestUnfetchedIndex).2
          hf⟩
  · intro it hit
    rw [FetchQueue.oldestUnfetchedItem] at hit ⊢
    cases hf : firstQueuedFrom q.items q.oldestUnfetchedIndex with
    | none => rw [hf] at hit; simp at hit
    | some j =>
        rw [hf] at hit
        obtain ⟨h1, h2, h3, h4⟩ :=
          (firstQueuedFrom_spec q.items q.oldestUnfetchedIndex).1 j hf
        have hit' : some (q.items.getD j dummyItem) = some it := hit
        have hji : q.items.getD j dummyItem = it := by
          injection hit'
        refine ⟨j, rfl, h1, h2, hji, ?_, h4⟩
        rw [← hji]
        exact h3
  · intro hnd
    refine le_trans (runOps_cursor_mono _ ops hnd) ?_
    exact stepOp_cursor_mono (runOps q.oldestUnfetchedItem.1 ops)
      .oldestUnfetched rfl
  · intro hempty hex
    have hcur : (q.defrost data).oldestUnfetchedIndex
        = (List.enumFrom 0 data).foldl
            (fun c (p : Nat × QueueItem) =>
              if p.2.status = .queued ∧ c > p.1 then p.1 else c)
            (data.length - 1) := by
      rw [FetchQueue.defrost]
      rw [List.enum]
      exact defrost_fold_cursor (List.enumFrom 0 data)
        { q with oldestUnfetchedIndex := data.length - 1, scanIndex := [] }
    obtain ⟨k₀, hk₀, hk₀q⟩ := hex
    obtain ⟨ha, hb, hc'⟩ := cursorFold_props data 0 (data.length - 1)
    have hlb := hc' k₀ hk₀ hk₀q
    rcases hb with h | ⟨k, hk, hkq, hr⟩
    · -- the fold stayed at length - 1: then k₀ must be length - 1 itself
      have hkeq : k₀ = data.length - 1 := by omega
      rw [hcur, h]
      refine ⟨by omega, by rwa [← hkeq], ?_⟩
      intro j hj
      intro hjq
      have := hc' j (by omega) hjq
      omega
    · rw [hcur, hr]
      simp only [Nat.zero_add]
      refine ⟨by omega, by simpa using hkq, ?_⟩
      intro j hj hjq
      have := hc' j (by omega) hjq
      omega

/-- Witness for C7: a concrete queue whose first item is fetched and
second is queued — the call returns the queued item at index 1 and the
cursor advances to 1; a concrete defrost computes the least queued
index. -/
theorem oldest_unfetched_cursor_claims_witness :
    (FetchQueue.oldestUnfetchedItem
      { items := [{ ref := 0, url := "a", id := 0, status := .downloaded,
                    fetched := true },
                  { ref := 1, url := "b", id := 1, status := .queued }],
        scanIndex := ["a", "b"] }).1.oldestUnfetchedIndex = 1
    ∧ (FetchQueue.defrost {}
        [{ ref := 0, url := "a", id := 0, status := .notfound,
           fetched := true },
         { ref := 1, url := "b", id := 1, status := .queued }]
       ).oldestUnfetchedIndex < 2 := by
  constructor
  · obtain ⟨j, hj, _, hjlt, hgd, _, _⟩ :=
      (oldest_unfetched_cursor_claims
        { items := [{ ref := 0, url := "a", id := 0, status := .downloaded,
                      fetched := true },
                    { ref := 1, url := "b", id := 1, status := .queued }],
          scanIndex := ["a", "b"] } [] []).1.2
        { ref := 1, url := "b", id := 1, status := .queued } rfl
    rw [hj]
    have hj2 : j < 2 := hjlt
    interval_cases j
    · exact absurd hgd (by decide)
    · rfl
  · exact ((oldest_unfetched_cursor_claims {} []
      [{ ref := 0, url := "a", id := 0, status := .notfound,
         fetched := true },
       { ref := 1, url := "b", id := 1, status := .queued }]).2.2.2
      rfl ⟨1, by decide, by decide⟩).1

/-! ## C6: cookie serialisation round-trip -/

theorem string_ext {s t : String} (h : s.data = t.data) : s = t := by
  cases s
  cases t
  cases h
  rfl

theorem splitOnChar_ne_nil (sep : Char) (l : List Char) :
    splitOnChar sep l ≠ [] := by
  cases l with
  | nil => simp [splitOnChar]
  | cons c cs =>
      rw [splitOnChar]
      cases h : splitOnChar sep cs with
      | nil => simp
      | cons r rs =>
          show ¬ (if c = sep then [] :: r :: rs else (c :: r) :: rs) = []
          by_cases hc : c = sep <;> simp [hc]

theorem splitOnChar_not_mem (sep : Char) (l : List Char) (h : sep ∉ l) :
    splitOnChar sep l = [l] := by
  induction l with
  | nil => rfl
  | cons c cs ih =>
      rw [splitOnChar, ih (fun hm => h (List.mem_cons_of_mem _ hm))]
      have hc : ¬ c = sep := fun hh => h (hh ▸ List.mem_cons_self c cs)
      simp [hc]

theorem splitOnChar_append (sep : Char) (l₁ l₂ : List Char)
    (h : sep ∉ l₁) :
    splitOnChar sep (l₁ ++ sep :: l₂) = l₁ :: splitOnChar sep l₂ := by
  induction l₁ with
  | nil =>
      rw [List.nil_append, splitOnChar]
      cases hsp : splitOnChar sep l₂ with
      | nil => exact absurd hsp (splitOnChar_ne_nil sep l₂)
      | cons r rs => simp
  | cons c cs ih =>
      rw [List.cons_append, splitOnChar,
        ih (fun hm => h (List.mem_cons_of_mem _ hm))]
      have hc : ¬ c = sep := fun hh => h (hh ▸ List.mem_cons_self c cs)
      simp [hc]

theorem joinChar_splitOnChar (sep : Char) (l : List Char) :
    joinChar sep (splitOnChar sep l) = l := by
  induction l with
  | nil => rfl
  | cons c cs ih =>
      rw [splitOnChar]
      cases hsp : splitOnChar sep cs with
      | nil => exact absurd hsp (splitOnChar_ne_nil sep cs)
      | cons r rs =>
          rw [hsp] at ih
          show joinChar sep
              (if c = sep then [] :: r :: rs else (c :: r) :: rs) = c :: cs
          by_cases hc : c = sep
          · subst hc
            rw [if_pos rfl]
            cases rs with
            | nil => simpa [joinChar] using ih
            | cons r2 rs2 => simpa [joinChar] using ih
          · rw [if_neg hc]
            cases rs with
            | nil => simpa [joinChar] using ih
            | cons r2 rs2 =>
                rw [joinChar] at ih ⊢
                · rw [List.cons_append, ih]
                · simp
                · simp

theorem trimRightWs_append (l₁ l₂ : List Char) (h : trimRightWs l₂ = l₂)
    (hne : l₂ ≠ []) : trimRightWs (l₁ ++ l₂) = l₁ ++ l₂ := by
  have h' : l₂.reverse.dropWhile isWsJS = l₂.reverse := by
    have := congrArg List.reverse h
    rwa [trimRightWs, List.reverse_reverse] at this
  rw [trimRightWs, List.reverse_append, List.dropWhile_append, h']
  have hrev : l₂.reverse.isEmpty = false := by
    rw [List.isEmpty_eq_false_iff_exists_mem]
    rcases List.exists_mem_of_ne_nil l₂ hne with ⟨x, hx⟩
    exact ⟨x, List.mem_reverse.mpr hx⟩
  rw [hrev]
  simp

/-- Stripping the header we just serialised leaves exactly the tail,
provided the tail does not itself start with whitespace. -/
theorem stripSetCookiePrefix_data (t : List Char)
    (h : trimLeftWs t = t) :
    stripSetCookiePrefix (String.mk ("Set-Cookie: ".data ++ t))
      = String.mk t := by
  have hred : stripSetCookiePrefix (String.mk ("Set-Cookie: ".data ++ t))
      = String.mk (trimLeftWs t) := rfl
  rw [hred, h]

theorem parseKeyVal_append (l₁ l₂ : List Char) (h : '=' ∉ l₁) :
    parseKeyVal (String.mk (l₁ ++ '=' :: l₂))
      = (String.mk l₁, String.mk l₂) := by
  rw [parseKeyVal]
  rw [show (String.mk (l₁ ++ '=' :: l₂)).data = l₁ ++ '=' :: l₂ from rfl]
  rw [splitOnChar_append '=' l₁ l₂ h]
  simp [joinChar_splitOnChar]

theorem trimLeftWs_append (l₁ l₂ : List Char) (h : trimLeftWs l₁ = l₁)
    (hne : l₁ ≠ []) : trimLeftWs (l₁ ++ l₂) = l₁ ++ l₂ := by
  rw [trimLeftWs, List.dropWhile_append]
  rw [trimLeftWs] at h
  rw [h]
  have hemp : l₁.isEmpty = false := by
    cases l₁ with
    | nil => exact absurd rfl hne
    | cons a l => rfl
  rw [hemp]
  simp

theorem mk_header_ne_empty (t : List Char) :
    String.mk ("Set-Cookie: ".data ++ t) ≠ "" := by
  intro hh
  have hdd := congrArg String.data hh
  rw [show (String.mk ("Set-Cookie: ".data ++ t)).data
      = "Set-Cookie: ".data ++ t from rfl,
    show ("" : String).data = [] from rfl] at hdd
  rcases List.append_eq_nil.mp hdd with ⟨h1, _⟩
  exact absurd h1 (by decide)

/-- Evaluation of the post-split part of `fromString` on the segment list
produced by a serialised cookie without the `Httponly` flag. -/
theorem cookieFromParts_eval_plain (pd : String → Int)
    (nameL valueL pathL domainL : List Char) (hn2 : '=' ∉ nameL) :
    cookieFromParts pd
      [String.mk (nameL ++ '=' :: valueL),
       String.mk ("Path=".data ++ pathL),
       String.mk ("Domain=".data ++ domainL), ""]
    = cookieNew pd (String.mk nameL) (some (String.mk valueL)) .undef
        (some (String.mk pathL)) (some (String.mk domainL)) false := by
  have e1 := parseKeyVal_append nameL valueL hn2
  have e2 : parseKeyVal (String.mk ("Path=".data ++ pathL))
      = ("Path", String.mk pathL) :=
    parseKeyVal_append "Path".data pathL (by decide)
  have e3 : parseKeyVal (String.mk ("Domain=".data ++ domainL))
      = ("Domain", String.mk domainL) :=
    parseKeyVal_append "Domain".data domainL (by decide)
  have hfil : List.filter hasNonWs
      [String.mk ("Path=".data ++ pathL),
       String.mk ("Domain=".data ++ domainL), ""]
      = [String.mk ("Path=".data ++ pathL),
         String.mk ("Domain=".data ++ domainL)] := rfl
  simp only [cookieFromParts, List.headD, List.tail_cons, e1, hfil,
    List.map_cons, List.map_nil, e2, e3]
  rfl

/-- Evaluation of the post-split part of `fromString` on the segment list
produced by a serialised cookie with the `Httponly` flag. -/
theorem cookieFromParts_eval_http (pd : String → Int)
    (nameL valueL pathL domainL : List Char) (hn2 : '=' ∉ nameL) :
    cookieFromParts pd
      [String.mk (nameL ++ '=' :: valueL),
       String.mk ("Path=".data ++ pathL),
       String.mk ("Domain=".data ++ domainL), "Httponly", ""]
    = cookieNew pd (String.mk nameL) (some (String.mk valueL)) .undef
        (some (String.mk pathL)) (some (String.mk domainL)) true := by
  have e1 := parseKeyVal_append nameL valueL hn2
  have e2 : parseKeyVal (String.mk ("Path=".data ++ pathL))
      = ("Path", String.mk pathL) :=
    parseKeyVal_append "Path".data pathL (by decide)
  have e3 : parseKeyVal (String.mk ("Domain=".data ++ domainL))
      = ("Domain", String.mk domainL) :=
    parseKeyVal_append "Domain".data domainL (by decide)
  have hfil : List.filter hasNonWs
      [String.mk ("Path=".data ++ pathL),
       String.mk ("Domain=".data ++ domainL), "Httponly", ""]
      = [String.mk ("Path=".data ++ pathL),
         String.mk ("Domain=".data ++ domainL), "Httponly"] := rfl
  simp only [cookieFromParts, List.headD, List.tail_cons, e1, hfil,
    List.map_cons, List.map_nil, e2, e3]
  rfl

/-- C6 counterexample: a cookie with `domain = ""` serialises with no
`Domain` attribute, so parsing the serialisation falls back to the
default domain `"*"` — the round-trip does not preserve `domain`.  (The
date parameters are irrelevant: with `expires = -1` no `Expires`
attribute is emitted.) -/
theorem cookie_roundtrip_counterexample :
    Cookie.fromStringJS (fun _ => 0)
      (Cookie.toStringJS (fun _ => "") ⟨"a", "", -1, "/", "", false⟩ true)
      = .ok ⟨"a", "", -1, "/", "*", false⟩
    ∧ ("*" : String) ≠ "" := by
  exact ⟨rfl, by decide⟩

/-- C6 (amended): the round-trip
`Cookie.fromString(c.toString(true))` preserves `name`, `value`,
`expires`, `path`, `domain` and `httponly` for session cookies
(`expires = -1`) whose fields survive the textual format: the name is
nonempty, has no leading whitespace and contains neither `;` nor `=`; the
value contains no `;` and has no trailing whitespace; path and domain are
nonempty, contain no `;` and have no trailing whitespace.  (Cookies with
a positive `expires` additionally depend on the JavaScript `Date`
round-trip, which truncates milliseconds; `domain`/`path` equal to the
empty string fall back to the constructor defaults, see the
counterexample.) -/
theorem cookie_roundtrip_amended (utc : Int → String) (pd : String → Int)
    (c : Cookie)
    (hexp : c.expires = -1) (hname : c.name ≠ "")
    (hn1 : ';' ∉ c.name.data) (hn2 : '=' ∉ c.name.data)
    (hn3 : trimLeftWs c.name.data = c.name.data)
    (hv1 : ';' ∉ c.value.data)
    (hv2 : trimRightWs c.value.data = c.value.data)
    (hp0 : c.path ≠ "") (hp1 : ';' ∉ c.path.data)
    (hp2 : trimRightWs c.path.data = c.path.data)
    (hd0 : c.domain ≠ "") (hd1 : ';' ∉ c.domain.data)
    (hd2 : trimRightWs c.domain.data = c.domain.data) :
    Cookie.fromStringJS pd (Cookie.toStringJS utc c true) = .ok c := by
  obtain ⟨nm, vl, ex, pa, dm, hpb⟩ := c
  simp only at hexp hname hn1 hn2 hn3 hv1 hv2 hp0 hp1 hp2 hd0 hd1 hd2
  subst hexp
  -- facts shared by both branches
  have hnmne : nm.data ≠ [] := by
    intro hh
    exact hname (string_ext (by rw [hh]))
  have hpane : pa.data ≠ [] := by
    intro hh
    exact hp0 (string_ext (by rw [hh]))
  have hdmne : dm.data ≠ [] := by
    intro hh
    exact hd0 (string_ext (by rw [hh]))
  have hAtrimR : trimRightWs (nm.data ++ '=' :: vl.data)
      = nm.data ++ '=' :: vl.data := by
    have hv2' : trimRightWs ('=' :: vl.data) = '=' :: vl.data := by
      cases hvc : vl.data with
      | nil => rfl
      | cons x xs =>
          rw [← hvc]
          rw [show ('=' :: vl.data : List Char)
              = ['='] ++ vl.data from rfl]
          exact trimRightWs_append ['='] vl.data hv2 (by rw [hvc]; simp)
    exact trimRightWs_append nm.data ('=' :: vl.data) hv2' (by simp)
  have hAnosemi : ';' ∉ nm.data ++ '=' :: vl.data := by
    intro hm
    rcases List.mem_append.mp hm with hm | hm
    · exact hn1 hm
    · rcases List.mem_cons.mp hm with hm | hm
      · cases hm
      · exact hv1 hm
  have hBnosemi : ';' ∉ ' ' :: ("Path=".data ++ pa.data) := by
    intro hm
    rcases List.mem_cons.mp hm with hm | hm
    · cases hm
    · rcases List.mem_append.mp hm with hm | hm
      · exact absurd hm (by decide)
      · exact hp1 hm
  have hCnosemi : ';' ∉ ' ' :: ("Domain=".data ++ dm.data) := by
    intro hm
    rcases List.mem_cons.mp hm with hm | hm
    · cases hm
    · rcases List.mem_append.mp hm with hm | hm
      · exact absurd hm (by decide)
      · exact hd1 hm
  have hPtrim : trimRightWs ("Path=".data ++ pa.data)
      = "Path=".data ++ pa.data :=
    trimRightWs_append "Path=".data pa.data hp2 hpane
  have hDtrim : trimRightWs ("Domain=".data ++ dm.data)
      = "Domain=".data ++ dm.data :=
    trimRightWs_append "Domain=".data dm.data hd2 hdmne
  have hsemi : ("; " : String).data = [';', ' '] := rfl
  have heqd : ("=" : String).data = ['='] := rfl
  have hTtrim : ∀ t : List Char,
      trimLeftWs (nm.data ++ t) = nm.data ++ t :=
    fun t => trimLeftWs_append nm.data t hn3 hnmne
  cases hpb with
  | false =>
      have hts : Cookie.toStringJS utc ⟨nm, vl, -1, pa, dm, false⟩ true
          = String.mk ("Set-Cookie: ".data
              ++ ((nm.data ++ '=' :: vl.data)
                ++ ';' :: ((' ' :: ("Path=".data ++ pa.data))
                ++ ';' :: ((' ' :: ("Domain=".data ++ dm.data))
                ++ ';' :: [' '])))) := by
        apply string_ext
        simp [Cookie.toStringJS, Cookie.toOutboundString, hp0, hd0,
          String.data_append, hsemi, heqd, List.append_assoc]
      rw [hts, Cookie.fromStringJS, if_neg (mk_header_ne_empty _)]
      rw [show (nm.data ++ '=' :: vl.data)
            ++ ';' :: ((' ' :: ("Path=".data ++ pa.data))
            ++ ';' :: ((' ' :: ("Domain=".data ++ dm.data))
            ++ ';' :: [' ']))
          = nm.data ++ ('=' :: vl.data
            ++ ';' :: ((' ' :: ("Path=".data ++ pa.data))
            ++ ';' :: ((' ' :: ("Domain=".data ++ dm.data))
            ++ ';' :: [' ']))) from by simp [List.append_assoc]]
      rw [stripSetCookiePrefix_data _ (hTtrim _)]
      rw [show nm.data ++ ('=' :: vl.data
            ++ ';' :: ((' ' :: ("Path=".data ++ pa.data))
            ++ ';' :: ((' ' :: ("Domain=".data ++ dm.data))
            ++ ';' :: [' '])))
          = (nm.data ++ '=' :: vl.data)
            ++ ';' :: ((' ' :: ("Path=".data ++ pa.data))
            ++ ';' :: ((' ' :: ("Domain=".data ++ dm.data))
            ++ ';' :: [' '])) from by simp [List.append_assoc]]
      have hsplit : splitSemiJS (String.mk
          ((nm.data ++ '=' :: vl.data)
            ++ ';' :: ((' ' :: ("Path=".data ++ pa.data))
            ++ ';' :: ((' ' :: ("Domain=".data ++ dm.data))
            ++ ';' :: [' '])))) =
          [String.mk (nm.data ++ '=' :: vl.data),
           String.mk ("Path=".data ++ pa.data),
           String.mk ("Domain=".data ++ dm.data), ""] := by
        rw [splitSemiJS]
        rw [show (String.mk ((nm.data ++ '=' :: vl.data)
            ++ ';' :: ((' ' :: ("Path=".data ++ pa.data))
            ++ ';' :: ((' ' :: ("Domain=".data ++ dm.data))
            ++ ';' :: [' '])))).data
          = (nm.data ++ '=' :: vl.data)
            ++ ';' :: ((' ' :: ("Path=".data ++ pa.data))
            ++ ';' :: ((' ' :: ("Domain=".data ++ dm.data))
            ++ ';' :: [' '])) from rfl]
        rw [splitOnChar_append ';' _ _ hAnosemi,
          splitOnChar_append ';' _ _ hBnosemi,
          splitOnChar_append ';' _ _ hCnosemi,
          splitOnChar_not_mem ';' [' '] (by decide)]
        rw [show splitSemiPieces true
            [nm.data ++ '=' :: vl.data,
             ' ' :: ("Path=".data ++ pa.data),
             ' ' :: ("Domain=".data ++ dm.data), [' ']]
          = [trimRightWs (nm.data ++ '=' :: vl.data),
             trimRightWs (trimLeftWs (' ' :: ("Path=".data ++ pa.data))),
             trimRightWs (trimLeftWs (' ' :: ("Domain=".data ++ dm.data))),
             trimLeftWs [' ']] from rfl]
        rw [hAtrimR,
          show trimLeftWs (' ' :: ("Path=".data ++ pa.data))
            = "Path=".data ++ pa.data from rfl,
          show trimLeftWs (' ' :: ("Domain=".data ++ dm.data))
            = "Domain=".data ++ dm.data from rfl,
          hPtrim, hDtrim]
        rfl
      rw [hsplit, cookieFromParts_eval_plain pd nm.data vl.data pa.data
        dm.data hn2]
      rw [cookieNew, if_neg hname]
      rfl
  | true =>
      have hts : Cookie.toStringJS utc ⟨nm, vl, -1, pa, dm, true⟩ true
          = String.mk ("Set-Cookie: ".data
              ++ ((nm.data ++ '=' :: vl.data)
                ++ ';' :: ((' ' :: ("Path=".data ++ pa.data))
                ++ ';' :: ((' ' :: ("Domain=".data ++ dm.data))
                ++ ';' :: ((' ' :: "Httponly".data)
                ++ ';' :: [' ']))))) := by
        apply string_ext
        simp [Cookie.toStringJS, Cookie.toOutboundString, hp0, hd0,
          String.data_append, hsemi, heqd, List.append_assoc,
          show ("Httponly; " : String).data
            = "Httponly".data ++ [';', ' '] from rfl]
      rw [hts, Cookie.fromStringJS, if_neg (mk_header_ne_empty _)]
      rw [show (nm.data ++ '=' :: vl.data)
            ++ ';' :: ((' ' :: ("Path=".data ++ pa.data))
            ++ ';' :: ((' ' :: ("Domain=".data ++ dm.data))
            ++ ';' :: ((' ' :: "Httponly".data) ++ ';' :: [' '])))
          = nm.data ++ ('=' :: vl.data
            ++ ';' :: ((' ' :: ("Path=".data ++ pa.data))
            ++ ';' :: ((' ' :: ("Domain=".data ++ dm.data))
            ++ ';' :: ((' ' :: "Httponly".data) ++ ';' :: [' ']))))
          from by simp [List.append_assoc]]
      rw [stripSetCookiePrefix_data _ (hTtrim _)]
      rw [show nm.data ++ ('=' :: vl.data
            ++ ';' :: ((' ' :: ("Path=".data ++ pa.data))
            ++ ';' :: ((' ' :: ("Domain=".data ++ dm.data))
            ++ ';' :: ((' ' :: "Httponly".data) ++ ';' :: [' ']))))
          = (nm.data ++ '=' :: vl.data)
            ++ ';' :: ((' ' :: ("Path=".data ++ pa.data))
            ++ ';' :: ((' ' :: ("Domain=".data ++ dm.data))
            ++ ';' :: ((' ' :: "Httponly".data) ++ ';' :: [' '])))
          from by simp [List.append_assoc]]
      have hsplit : splitSemiJS (String.mk
          ((nm.data ++ '=' :: vl.data)
            ++ ';' :: ((' ' :: ("Path=".data ++ pa.data))
            ++ ';' :: ((' ' :: ("Domain=".data ++ dm.data))
            ++ ';' :: ((' ' :: "Httponly".data) ++ ';' :: [' ']))))) =
          [String.mk (nm.data ++ '=' :: vl.data),
           String.mk ("Path=".data ++ pa.data),
           String.mk ("Domain=".data ++ dm.data), "Httponly", ""] := by
        rw [splitSemiJS]
        rw [show (String.mk ((nm.data ++ '=' :: vl.data)
            ++ ';' :: ((' ' :: ("Path=".data ++ pa.data))
            ++ ';' :: ((' ' :: ("Domain=".data ++ dm.data))
            ++ ';' :: ((' ' :: "Httponly".data) ++ ';' :: [' ']))))).data
          = (nm.data ++ '=' :: vl.data)
            ++ ';' :: ((' ' :: ("Path=".data ++ pa.data))
            ++ ';' :: ((' ' :: ("Domain=".data ++ dm.data))
            ++ ';' :: ((' ' :: "Httponly".data) ++ ';' :: [' '])))
          from rfl]
        rw [splitOnChar_append ';' _ _ hAnosemi,
          splitOnChar_append ';' _ _ hBnosemi,
          splitOnChar_append ';' _ _ hCnosemi,
          splitOnChar_append ';' (' ' :: "Httponly".data) [' ']
            (by decide),
          splitOnChar_not_mem ';' [' '] (by decide)]
        rw [show splitSemiPieces true
            [nm.data ++ '=' :: vl.data,
             ' ' :: ("Path=".data ++ pa.data),
             ' ' :: ("Domain=".data ++ dm.data),
             ' ' :: "Httponly".data, [' ']]
          = [trimRightWs (nm.data ++ '=' :: vl.data),
             trimRightWs (trimLeftWs (' ' :: ("Path=".data ++ pa.data))),
             trimRightWs (trimLeftWs (' ' :: ("Domain=".data ++ dm.data))),
             trimRightWs (trimLeftWs (' ' :: "Httponly".data)),
             trimLeftWs [' ']] from rfl]
        rw [hAtrimR,
          show trimLeftWs (' ' :: ("Path=".data ++ pa.data))
            = "Path=".data ++ pa.data from rfl,
          show trimLeftWs (' ' :: ("Domain=".data ++ dm.data))
            = "Domain=".data ++ dm.data from rfl,
          hPtrim, hDtrim]
        rfl
      rw [hsplit, cookieFromParts_eval_http pd nm.data vl.data pa.data
        dm.data hn2]
      rw [cookieNew, if_neg hname]
      rfl

/-- Witness for C6's amended theorem: a concrete well-formed session
cookie round-trips. -/
theorem cookie_roundtrip_amended_witness :
    Cookie.fromStringJS (fun _ => 0)
      (Cookie.toStringJS (fun _ => "")
        ⟨"sid", "xyz", -1, "/", "example.com", true⟩ true)
      = .ok ⟨"sid", "xyz", -1, "/", "example.com", true⟩ :=
  cookie_roundtrip_amended (fun _ => "") (fun _ => 0)
    ⟨"sid", "xyz", -1, "/", "example.com", true⟩ rfl (by decide)
    (by decide) (by decide) (by decide) (by decide) (by decide)
    (by decide) (by decide) (by decide) (by decide) (by decide)
    (by decide)

end SimpleCrawler
